import Mathlib

/-!
Verification development for the batch e-commerce scraping pipeline.

Shallow embedding of the pure computational content of:
  src/utils.py        (parse_sales)
  src/database.py     (BatchScraperDB: save_asins, reset_filter_status and
                       the five filter stages over the asins table)
  src/apify_db.py     (ApifyDB: TTL cache with price reconciliation)
  src/apify_price.py  (ApifyPriceFetcher.get_price_history read path)
  src/ai_analyzer.py  (GeminiProductAnalyzer adaptive concurrency control)

Modelling conventions:
  - a SQLite table is a list of rows in insertion order; INSERT OR REPLACE
    deletes the row with the conflicting unique key and appends the new row;
  - SQL NULL is Option.none; a comparison against NULL is not satisfied,
    matching SQL three-valued logic in WHERE clauses;
  - REAL columns and Python floats are modelled as exact rationals; the
    arithmetic the code performs on stored values (comparisons, min, max,
    average of two, round to 2 decimals) is mirrored over the rationals;
    the one place that parses and scales a float, parse_sales, is modelled
    with explicit IEEE-754 binary64 rounding (round64 below);
  - TEXT timestamps in the form YYYY-MM-DD HH:MM:SS (and date-only strings)
    compare lexicographically iff chronologically, so they are modelled as
    integers (seconds for cache timestamps, days for listing dates);
  - Python truthiness of strings and lists (None and empty are falsy) is
    spelled out at each use site.
-/

namespace LargeData

/-- The filter_status column of the asins table: NULL (kept) or one of the
six tag strings written by the filter stages. -/
inductive FilterTag
  | sponsored
  | categoryFiltered
  | salesFiltered
  | priceFiltered
  | listingDateFiltered
  | salesMonthsFiltered
deriving DecidableEq, Repr

/-- One row of the asins table (src/database.py, CREATE TABLE asins plus the
migrated columns). Prices are rationals, listing dates are day numbers,
created_at is a timestamp in seconds. -/
structure AsinRecord where
  asin : String
  keyword : String
  source_type : Option String := none
  source_value : Option String := none
  name : Option String := none
  brand : Option String := none
  category : Option String := none
  category_path : Option String := none
  category_main : Option String := none
  category_sub : Option String := none
  price : Option ℚ := none
  rating : Option ℚ := none
  reviews_count : Option ℤ := none
  sales_volume : Option ℤ := none
  page_rank : Option ℤ := none
  url : Option String := none
  is_sponsored : Bool := false
  filter_status : Option FilterTag := none
  sales_3m : Option ℤ := none
  price_min : Option ℚ := none
  price_max : Option ℚ := none
  price_min_date : Option ℤ := none
  price_max_date : Option ℤ := none
  ss_monthly_sales : Option ℤ := none
  listing_date : Option ℤ := none
  avg_monthly_sales : Option ℤ := none
  sales_months_count : Option ℤ := none
  created_at : ℤ := 0
deriving DecidableEq, Repr

/-! ### parse_sales (src/utils.py lines 39-70)

The function searches the message for the Python regular expression

  (\d+(?:\.\d+)?)\s*([KkMm])?\s*\+

converts the first captured number with float(), scales it by 1000 or
1000000 for a K or M unit with a float multiplication, and truncates the
result with int(); it returns 0 when there is no match or the message is
falsy. The backtracking engine is deterministic for this pattern: at a
candidate start position every digit run and whitespace run is forced to be
maximal (a shorter run leaves a digit or a space as the next character,
which none of the following pattern pieces can consume), and a unit letter,
once present after the number, must be consumed (the required plus sign
cannot match it). The embedding below implements exactly that deterministic
reading, scanning start positions left to right as re.search does, and
returns the captured groups; the numeric conversion then follows IEEE-754
binary64 semantics: float() rounds the exact decimal value of the capture
to the nearest double (ties to even, overflow to infinity), the scaling
multiplication rounds its exact product the same way, and int() truncates a
finite double toward zero but raises OverflowError on an infinite one, an
exception that propagates out of parse_sales (the none result below). -/

/-- Multiplier attached to the optional unit letter: K scales by a thousand
and M by a million (src/utils.py lines 64-69). -/
def unitMult (c : Char) : ℚ :=
  if c == 'K' || c == 'k' then 1000
  else if c == 'M' || c == 'm' then 1000000
  else 1

/-- Characters accepted by the regex character class [KkMm]. -/
def isUnitChar (c : Char) : Bool :=
  c == 'K' || c == 'k' || c == 'M' || c == 'm'

/-- Value of a digit run read in base ten. -/
def digitsVal (ds : List Char) : ℕ :=
  List.foldl (fun n c => 10 * n + (c.toNat - 48)) 0 ds

/-- Value of the captured number: integer digits plus an optional fractional
digit run, as float() reads the capture. -/
def numVal (ds fs : List Char) : ℚ :=
  (digitsVal ds : ℚ) + (digitsVal fs : ℚ) / (10 : ℚ) ^ fs.length

/-- The captured groups of one match of the sales pattern: the integer
digits of group 1, its fractional digits (empty when no fraction was
captured), and group 2, the optional unit letter ([] or one K/k/M/m). -/
structure SalesGroups where
  digits : List Char
  fracDigits : List Char
  unit : List Char
deriving DecidableEq, Repr

/-- Floor of the base-two logarithm of a positive rational, computed from
the bit lengths of numerator and denominator with a one-step correction. -/
def ratLog2 (q : ℚ) : ℤ :=
  if (2 : ℚ) ^ ((Nat.log 2 q.num.natAbs : ℤ) - (Nat.log 2 q.den : ℤ)) ≤ q then
    (Nat.log 2 q.num.natAbs : ℤ) - (Nat.log 2 q.den : ℤ)
  else (Nat.log 2 q.num.natAbs : ℤ) - (Nat.log 2 q.den : ℤ) - 1

/-- Round a rational to the nearest integer, ties to even. -/
def rnEven (t : ℚ) : ℤ :=
  if t - ⌊t⌋ < 1 / 2 then ⌊t⌋
  else if 1 / 2 < t - ⌊t⌋ then ⌊t⌋ + 1
  else if ⌊t⌋ % 2 = 0 then ⌊t⌋ else ⌊t⌋ + 1

/-- Spacing of the IEEE-754 binary64 grid around q: an ulp of 2^(e-52) in
the binade of q, floored at the subnormal spacing 2^-1074. -/
def f64step (q : ℚ) : ℤ := max (ratLog2 q - 52) (-1074)

/-- Round a nonnegative exact rational to the nearest IEEE-754 binary64
value, ties to even; none is the overflow to infinity, which happens
exactly when the rounded value reaches 2^1024. This is the semantics of
float() on the captured decimal string and of a float multiplication
applied to the exact product of its operands. -/
def round64 (q : ℚ) : Option ℚ :=
  if (rnEven (q / 2 ^ f64step q) : ℚ) * 2 ^ f64step q < 2 ^ (1024 : ℤ) then
    some ((rnEven (q / 2 ^ f64step q) : ℚ) * 2 ^ f64step q)
  else none

/-- int() applied to a finite double value: truncation toward zero. -/
def truncQ (q : ℚ) : ℤ := if q < 0 then -⌊-q⌋ else ⌊q⌋

/-- q is a nonnegative finite binary64 value: a dyadic rational with at most
53 significant bits and exponent within the normal-subnormal range. -/
def Repr64 (q : ℚ) : Prop :=
  ∃ (m : ℕ) (s : ℤ), q = (m : ℚ) * 2 ^ s ∧ m < 2 ^ 53 ∧ -1074 ≤ s ∧ s ≤ 971

/-- Exact scale named by the optional unit group. -/
def scaleOf (us : List Char) : ℚ :=
  match us with
  | [u] => unitMult u
  | _ => 1

/-- Apply the optional unit as the source does: no unit leaves the double
unchanged, a K or M unit multiplies by 1000 or 1000000 in double
arithmetic, rounding the exact product; an infinite operand stays
infinite. -/
def applyUnit (x : Option ℚ) (us : List Char) : Option ℚ :=
  match us with
  | [u] =>
    match x with
    | some q => round64 (q * unitMult u)
    | none => none
  | _ => x

/-- Numeric pipeline applied to the captured groups, as the source computes
int(float(capture) * multiplier) in doubles: none models the OverflowError
raised by int() on an infinite double. -/
def salesValue (g : SalesGroups) : Option ℤ :=
  (applyUnit (round64 (numVal g.digits g.fracDigits)) g.unit).map truncQ

/-- Tail of the sales regex after the captured number: optional whitespace,
an optional unit letter, optional whitespace, then the mandatory plus sign;
returns the captured groups, with the number groups passed through. -/
def afterNum (ds fds : List Char) (rest : List Char) : Option SalesGroups :=
  match rest.dropWhile Char.isWhitespace with
  | [] => none
  | c :: r =>
    if isUnitChar c then
      match r.dropWhile Char.isWhitespace with
      | '+' :: _ => some ⟨ds, fds, [c]⟩
      | _ => none
    else if c == '+' then some ⟨ds, fds, []⟩
    else none

/-- Attempt of the sales regex anchored at the head of the character list,
returning the captured groups of the match when it succeeds. The digit and
whitespace runs are maximal and the optional fraction is taken exactly when
a dot followed by a digit comes next, which is the behavior the
backtracking engine is forced into (see the section comment). -/
def salesMatchAt (cs : List Char) : Option SalesGroups :=
  if (cs.takeWhile Char.isDigit).isEmpty then none
  else
    match cs.dropWhile Char.isDigit with
    | '.' :: r =>
      if (r.takeWhile Char.isDigit).isEmpty then
        afterNum (cs.takeWhile Char.isDigit) [] ('.' :: r)
      else
        afterNum (cs.takeWhile Char.isDigit) (r.takeWhile Char.isDigit)
          (r.dropWhile Char.isDigit)
    | r1 => afterNum (cs.takeWhile Char.isDigit) [] r1

/-- Leftmost-start search of the sales pattern, as re.search performs it. -/
def scanSales : List Char → Option SalesGroups
  | [] => none
  | c :: rest =>
    match salesMatchAt (c :: rest) with
    | some g => some g
    | none => scanSales rest

/-- Embedding of parse_sales (src/utils.py lines 39-70): some 0 for a falsy
message (None or the empty string) and for a message without a match,
otherwise the double-arithmetic value of the first match; none models the
OverflowError escaping when the scaled double is infinite. -/
def parse_sales (message : Option String) : Option ℤ :=
  match message with
  | none => some 0
  | some s =>
    if s == "" then some 0
    else
      match scanSales s.toList with
      | none => some 0
      | some g => salesValue g

/-! ### Record store: save_asins and reset (src/database.py) -/

/-- Raw scraped item as handed to save_asins: the dict keys the INSERT reads
(src/database.py lines 177-206). The price value is the numeric result of
parse_price normalization; stars and rating (and the two review counts) are
the alternative provider keys combined with Python or, which treats 0 as
falsy. -/
structure RawItem where
  asin : Option String := none
  name : Option String := none
  brand : Option String := none
  category : Option String := none
  category_path : Option String := none
  category_main : Option String := none
  category_sub : Option String := none
  price : Option ℚ := none
  stars : Option ℚ := none
  rating : Option ℚ := none
  total_reviews : Option ℤ := none
  ratings_total : Option ℤ := none
  sales_volume : Option ℤ := none
  purchase_history_message : Option String := none
  page : Option ℤ := none
  url : Option String := none
  is_sponsored : Bool := false
deriving DecidableEq, Repr

/-- Python x or y over optional rationals: y is used when x is None or 0. -/
def pyOrQ (x y : Option ℚ) : Option ℚ :=
  match x with
  | some v => if v = 0 then y else some v
  | none => y

/-- Python x or y over optional integers: y is used when x is None or 0. -/
def pyOrZ (x y : Option ℤ) : Option ℤ :=
  match x with
  | some v => if v = 0 then y else some v
  | none => y

/-- Row built by the INSERT OR REPLACE in save_asins (src/database.py lines
182-206). Columns absent from the INSERT column list (filter_status, the
nine enrichment columns, created_at) take their schema defaults: NULL for
all of them and datetime now for created_at. -/
def mkAsinRecord (item : RawItem) (keyword source_type source_value : String)
    (now : ℤ) (a : String) : AsinRecord :=
  { asin := a
    keyword := keyword
    source_type := some source_type
    source_value := some source_value
    name := item.name
    brand := item.brand
    category := item.category
    category_path := item.category_path
    category_main := item.category_main
    category_sub := item.category_sub
    price := item.price
    rating := pyOrQ item.stars item.rating
    reviews_count := pyOrZ item.total_reviews item.ratings_total
    sales_volume :=
      match item.sales_volume with
      | some v => some v
      | none => parse_sales item.purchase_history_message
    page_rank := item.page
    url := item.url
    is_sponsored := item.is_sponsored
    filter_status := none
    created_at := now }

/-- One iteration of the save_asins loop: a falsy asin (None or the empty
string) is skipped; otherwise INSERT OR REPLACE on the UNIQUE(asin, keyword)
key deletes any conflicting row and appends the fresh row. -/
def upsertAsin (keyword source_type source_value : String) (now : ℤ)
    (store : List AsinRecord) (item : RawItem) : List AsinRecord × Bool :=
  match item.asin with
  | none => (store, false)
  | some a =>
    if a == "" then (store, false)
    else
      (store.filter (fun r => !(r.asin == a && r.keyword == keyword)) ++
        [mkAsinRecord item keyword source_type source_value now a], true)

/-- Embedding of BatchScraperDB.save_asins (src/database.py lines 162-211):
fold of the per-item upsert, returning the new table and the saved count. -/
def save_asins (items : List RawItem) (keyword source_type source_value : String)
    (now : ℤ) (store : List AsinRecord) : List AsinRecord × ℕ :=
  List.foldl
    (fun acc item =>
      let step := upsertAsin keyword source_type source_value now acc.1 item
      (step.1, acc.2 + (if step.2 then 1 else 0)))
    (store, 0) items

/-- Embedding of BatchScraperDB.reset_filter_status (src/database.py lines
454-474): clear filter_status for the keyword and report how many rows had a
tag. -/
def reset_filter_status (keyword : String) (store : List AsinRecord) :
    List AsinRecord × ℕ :=
  let hit := fun (r : AsinRecord) => r.keyword == keyword && !r.filter_status.isNone
  (store.map (fun r => if hit r then { r with filter_status := none } else r),
    (store.filter hit).length)

/-! ### Filter stages (src/database.py) -/

/-- Row matches keyword and is currently unfiltered (filter_status IS NULL). -/
def isUnfiltered (keyword : String) (r : AsinRecord) : Bool :=
  r.keyword == keyword && r.filter_status.isNone

/-- Single mutation primitive of every filter stage: the UPDATE ... SET
filter_status = tag WHERE predicate statement, which rewrites exactly the
rows matched by the predicate. Every stage predicate includes
filter_status IS NULL. -/
def markIf (f : AsinRecord → Bool) (tag : FilterTag) (store : List AsinRecord) :
    List AsinRecord :=
  store.map (fun r => if f r then { r with filter_status := some tag } else r)

/-- Report of the sponsored filter (src/database.py lines 476-520). -/
structure SponsoredReport where
  total : ℕ
  sponsored_count : ℕ
  removed : ℕ
  kept : ℕ
deriving DecidableEq, Repr

/-- Rows marked by the sponsored-filter UPDATE (src/database.py lines
505-509). -/
def sponsoredHit (keyword : String) (r : AsinRecord) : Bool :=
  r.keyword == keyword && r.is_sponsored && r.filter_status.isNone

/-- Embedding of BatchScraperDB.filter_sponsored_asins (src/database.py lines
476-520). Note its total counts every row of the keyword, tagged or not. -/
def filter_sponsored_asins (keyword : String) (store : List AsinRecord) :
    List AsinRecord × SponsoredReport :=
  let total := (store.filter (fun r => r.keyword == keyword)).length
  let sponsored_count :=
    (store.filter (fun r => r.keyword == keyword && r.is_sponsored)).length
  let removed := (store.filter (sponsoredHit keyword)).length
  let marked := markIf (sponsoredHit keyword) FilterTag.sponsored store
  (marked,
    { total := total, sponsored_count := sponsored_count, removed := removed,
      kept := total - removed })

/-- Report of the sales and of the generic count-only filters. -/
structure SalesReport where
  total : ℕ
  removed : ℕ
  kept : ℕ
deriving DecidableEq, Repr

/-- Rows marked by the sales-filter UPDATE (src/database.py lines 577-581):
sales_volume > threshold under SQL semantics, so NULL never matches. -/
def salesHit (keyword : String) (max_sales : ℤ) (r : AsinRecord) : Bool :=
  r.keyword == keyword &&
    (match r.sales_volume with
     | some v => decide (max_sales < v)
     | none => false) &&
    r.filter_status.isNone

/-- Embedding of BatchScraperDB.filter_low_sales_asins (src/database.py lines
553-591). -/
def filter_low_sales_asins (keyword : String) (max_sales : ℤ)
    (store : List AsinRecord) : List AsinRecord × SalesReport :=
  let total := (store.filter (isUnfiltered keyword)).length
  let removed := (store.filter (salesHit keyword max_sales)).length
  let marked := markIf (salesHit keyword max_sales) FilterTag.salesFiltered store
  (marked, { total := total, removed := removed, kept := total - removed })

/-! ### Category-majority filter (src/database.py lines 634-741)

The GROUP BY category_sub ... ORDER BY cnt DESC LIMIT 1 query is embedded as
an explicit arg-max over the multiset of sub-categories of the currently
unfiltered rows, with ties broken by the category encountered first in store
iteration order (the policy the design document states; SQLite leaves the
order of equal-count groups unspecified). -/

/-- Sub-category occurrences among unfiltered rows of the keyword, in store
order; NULL and empty sub-categories are excluded as in the GROUP BY WHERE
clause. -/
def catCandidates (keyword : String) (store : List AsinRecord) : List String :=
  store.filterMap (fun r =>
    if isUnfiltered keyword r then
      match r.category_sub with
      | some c => if c == "" then none else some c
      | none => none
    else none)

/-- Distinct elements in first-occurrence order, with an accumulator of the
values already seen. -/
def firstOccsAux (seen : List String) : List String → List String
  | [] => []
  | c :: rest =>
    if c ∈ seen then firstOccsAux seen rest
    else c :: firstOccsAux (c :: seen) rest

/-- Distinct elements in first-occurrence order. -/
def firstOccs (l : List String) : List String := firstOccsAux [] l

/-- Largest-count group, scanning left and replacing only on a strictly
larger count, so the first largest group wins ties. -/
def pickTop (l : List (String × ℕ)) : Option (String × ℕ) :=
  match l with
  | [] => none
  | p :: rest => some (List.foldl (fun best q => if best.2 < q.2 then q else best) p rest)

/-- The selected top sub-category and its unfiltered-row count, None when no
unfiltered row of the keyword has a non-empty sub-category. -/
def topCategory (keyword : String) (store : List AsinRecord) : Option (String × ℕ) :=
  let cands := catCandidates keyword store
  pickTop ((firstOccs cands).map (fun c => (c, cands.count c)))

/-- Rounding to two decimals as Python round(x, 2) produces for the values
arising here (binary floats make exact decimal halves unrepresentable, so
the half-up convention chosen here only matters at points the float code
cannot hit exactly). -/
def round2 (q : ℚ) : ℚ := ((round (q * 100) : ℤ) : ℚ) / 100

/-- Price list of the mean/median queries of filter_by_top_category
(src/database.py lines 697-712): every row of the keyword in the selected
sub-category with a non-NULL positive price — the queries do not restrict to
filter_status IS NULL. -/
def topPrices (keyword t : String) (store : List AsinRecord) : List ℚ :=
  store.filterMap (fun r =>
    if r.keyword == keyword && r.category_sub == some t then
      match r.price with
      | some p => if 0 < p then some p else none
      | none => none
    else none)

/-- Median of an ascending list as src/database.py lines 714-720 computes it:
middle element for an odd length, mean of the two middle elements for an
even length, rounded to two decimals, None for an empty list. -/
def medianOfSorted (l : List ℚ) : Option ℚ :=
  match l with
  | [] => none
  | _ :: _ =>
    let n := l.length
    if n % 2 = 1 then (l[n / 2]?).map round2
    else
      match l[n / 2 - 1]?, l[n / 2]? with
      | some a, some b => some (round2 ((a + b) / 2))
      | _, _ => none

/-- Average as the AVG query plus round(x, 2) if x else None computes it
(src/database.py lines 697-703). -/
def avgOf (l : List ℚ) : Option ℚ :=
  match l with
  | [] => none
  | _ :: _ =>
    let a := l.sum / (l.length : ℚ)
    if a = 0 then none else some (round2 a)

/-- Report of the category-majority filter. -/
structure CategoryReport where
  total : ℕ
  top_category : Option String
  top_category_count : ℕ
  removed : ℕ
  kept : ℕ
  avg_price : Option ℚ
  median_price : Option ℚ
deriving DecidableEq, Repr

/-- Rows marked by the category-filter UPDATE (src/database.py lines
723-727): unfiltered rows of the keyword whose sub-category is NULL or
differs from the selected one. -/
def catHit (keyword t : String) (r : AsinRecord) : Bool :=
  r.keyword == keyword &&
    (match r.category_sub with
     | none => true
     | some c => !(c == t)) &&
    r.filter_status.isNone

/-- Embedding of BatchScraperDB.filter_by_top_category (src/database.py lines
634-741). -/
def filter_by_top_category (keyword : String) (store : List AsinRecord) :
    List AsinRecord × CategoryReport :=
  let total := (store.filter (isUnfiltered keyword)).length
  if total = 0 then
    (store,
      { total := 0, top_category := none, top_category_count := 0, removed := 0,
        kept := 0, avg_price := none, median_price := none })
  else
    match topCategory keyword store with
    | none =>
      (store,
        { total := total, top_category := none, top_category_count := 0,
          removed := 0, kept := total, avg_price := none, median_price := none })
    | some (t, n) =>
      let avg := avgOf (topPrices keyword t store)
      let med := medianOfSorted ((topPrices keyword t store).insertionSort (· ≤ ·))
      let removed := (store.filter (catHit keyword t)).length
      let marked := markIf (catHit keyword t) FilterTag.categoryFiltered store
      (marked,
        { total := total, top_category := some t, top_category_count := n,
          removed := removed, kept := total - removed, avg_price := avg,
          median_price := med })

/-! ### Price and listing-date filters (src/database.py) -/

/-- Report of the price filter (src/database.py lines 922-970). -/
structure PriceReport where
  total : ℕ
  max_price : ℚ
  removed : ℕ
  kept : ℕ
deriving DecidableEq, Repr

/-- Rows marked by the price-filter UPDATE (src/database.py lines 955-959):
price > threshold under SQL semantics, so NULL never matches. -/
def priceHit (keyword : String) (max_price : ℚ) (r : AsinRecord) : Bool :=
  r.keyword == keyword &&
    (match r.price with
     | some p => decide (max_price < p)
     | none => false) &&
    r.filter_status.isNone

/-- Embedding of BatchScraperDB.filter_by_price (src/database.py lines
922-970). -/
def filter_by_price (keyword : String) (max_price : ℚ)
    (store : List AsinRecord) : List AsinRecord × PriceReport :=
  let total := (store.filter (isUnfiltered keyword)).length
  if total = 0 then
    (store, { total := 0, max_price := max_price, removed := 0, kept := 0 })
  else
    let removed := (store.filter (priceHit keyword max_price)).length
    let marked := markIf (priceHit keyword max_price) FilterTag.priceFiltered store
    (marked,
      { total := total, max_price := max_price, removed := removed,
        kept := total - removed })

/-- Report of the listing-date filter (src/database.py lines 1141-1214). -/
structure ListingReport where
  total : ℕ
  cutoff_date : ℤ
  removed : ℕ
  removed_by_date : ℕ
  removed_by_sales_months : ℕ
  kept : ℕ
deriving DecidableEq, Repr

/-- Rows marked by the first listing-date UPDATE (src/database.py lines
1186-1191): a non-NULL listing date strictly before the cutoff. -/
def dateHit (keyword : String) (cutoff : ℤ) (r : AsinRecord) : Bool :=
  r.keyword == keyword &&
    (match r.listing_date with
     | some d => decide (d < cutoff)
     | none => false) &&
    r.filter_status.isNone

/-- Rows marked by the second listing-date UPDATE (src/database.py lines
1195-1200): a non-NULL months-with-sales count strictly above the window. -/
def monthsHit (keyword : String) (months : ℤ) (r : AsinRecord) : Bool :=
  r.keyword == keyword &&
    (match r.sales_months_count with
     | some m => decide (months < m)
     | none => false) &&
    r.filter_status.isNone

/-- Embedding of BatchScraperDB.filter_by_listing_date (src/database.py lines
1141-1214): two sequential UPDATE statements; the cutoff is today minus
months * 30 days. -/
def filter_by_listing_date (keyword : String) (months today : ℤ)
    (store : List AsinRecord) : List AsinRecord × ListingReport :=
  let cutoff := today - months * 30
  let total := (store.filter (isUnfiltered keyword)).length
  if total = 0 then
    (store,
      { total := 0, cutoff_date := cutoff, removed := 0, removed_by_date := 0,
        removed_by_sales_months := 0, kept := 0 })
  else
    let removed_by_date := (store.filter (dateHit keyword cutoff)).length
    let store1 := markIf (dateHit keyword cutoff) FilterTag.listingDateFiltered store
    let removed_by_sales_months := (store1.filter (monthsHit keyword months)).length
    let store2 := markIf (monthsHit keyword months) FilterTag.salesMonthsFiltered store1
    (store2,
      { total := total, cutoff_date := cutoff,
        removed := removed_by_date + removed_by_sales_months,
        removed_by_date := removed_by_date,
        removed_by_sales_months := removed_by_sales_months,
        kept := total - (removed_by_date + removed_by_sales_months) })

/-! ### Apify TTL cache (src/apify_db.py, src/apify_price.py)

Cache timestamps are seconds; the SQL comparisons of the textual timestamps
are lexicographic and hence chronological, so created_at >= cutoff with
cutoff = now - days becomes an integer inequality. A history field absent
from the payload, None, or the empty list are all falsy in the Python code
and are modelled as the empty list. -/

/-- One point of a raw price-history series; a point without a date key reads
as the empty string via record.get with default. -/
structure PricePoint where
  price : Option ℚ := none
  date : String := ""
deriving DecidableEq, Repr

/-- The slice of an Apify payload that save_apify_data and the price parsers
read. -/
structure ApifyPayload where
  asin : Option String := none
  price : Option ℚ := none
  price_min : Option ℚ := none
  price_max : Option ℚ := none
  price_min_date : Option String := none
  price_max_date : Option String := none
  price_amazon_history : List PricePoint := []
  price_buybox_history : List PricePoint := []
  price_new_history : List PricePoint := []
deriving DecidableEq, Repr

/-- First non-empty history series in the fixed priority Amazon, BuyBox, New
(src/apify_db.py lines 172-179). -/
def chosenHistory (d : ApifyPayload) : List PricePoint :=
  if !d.price_amazon_history.isEmpty then d.price_amazon_history
  else if !d.price_buybox_history.isEmpty then d.price_buybox_history
  else if !d.price_new_history.isEmpty then d.price_new_history
  else []

/-- Points of a series with a present, strictly positive price
(src/apify_db.py lines 184-190). -/
def validPrices (h : List PricePoint) : List (ℚ × String) :=
  h.filterMap (fun p =>
    match p.price with
    | some q => if 0 < q then some (q, p.date) else none
    | none => none)

/-- Python min with a key: the first element with the minimal price. -/
def minByPrice (l : List (ℚ × String)) : Option (ℚ × String) :=
  match l with
  | [] => none
  | p :: rest => some (List.foldl (fun best q => if q.1 < best.1 then q else best) p rest)

/-- Python max with a key: the first element with the maximal price. -/
def maxByPrice (l : List (ℚ × String)) : Option (ℚ × String) :=
  match l with
  | [] => none
  | p :: rest => some (List.foldl (fun best q => if best.1 < q.1 then q else best) p rest)

/-- Min/max price facts of a payload, as stored (or passed through). -/
structure PriceSummary where
  price_min : Option ℚ
  price_max : Option ℚ
  price_min_date : Option String
  price_max_date : Option String
deriving DecidableEq, Repr

/-- Embedding of ApifyDB._calc_price_history (src/apify_db.py lines 157-203):
extreme prices and their dates over the valid points of the chosen series,
all None when there is no series or no valid point. -/
def calc_price_history (d : ApifyPayload) : PriceSummary :=
  let vp := validPrices (chosenHistory d)
  match minByPrice vp, maxByPrice vp with
  | some mn, some mx => ⟨some mn.1, some mx.1, some mn.2, some mx.2⟩
  | _, _ => ⟨none, none, none, none⟩

/-- Payload carries at least one non-empty raw history series
(src/apify_db.py lines 95-96). -/
def hasHistory (d : ApifyPayload) : Bool :=
  !d.price_amazon_history.isEmpty || !d.price_buybox_history.isEmpty ||
    !d.price_new_history.isEmpty

/-- Reconciliation in save_apify_data (src/apify_db.py lines 88-109): with a
history present the computed values are preferred and the provider-supplied
summary is only a fallback when a computed value is missing (None for
prices, None or the empty string for dates); without a history the
provider-supplied summary passes through. -/
def reconcileSummary (d : ApifyPayload) : PriceSummary :=
  if hasHistory d then
    let c := calc_price_history d
    { price_min := c.price_min <|> d.price_min
      price_max := c.price_max <|> d.price_max
      price_min_date :=
        match c.price_min_date with
        | some s => if s == "" then d.price_min_date else some s
        | none => d.price_min_date
      price_max_date :=
        match c.price_max_date with
        | some s => if s == "" then d.price_max_date else some s
        | none => d.price_max_date }
  else
    { price_min := d.price_min, price_max := d.price_max,
      price_min_date := d.price_min_date, price_max_date := d.price_max_date }

/-- One row of the apify_cache table, restricted to the columns the claims
touch; created_at is the capture timestamp used for freshness, reset to now
on every INSERT OR REPLACE because it is not in the INSERT column list. -/
structure CacheEntry where
  asin : String
  price_min : Option ℚ := none
  price_max : Option ℚ := none
  price_min_date : Option String := none
  price_max_date : Option String := none
  price : Option ℚ := none
  raw_data : ApifyPayload := {}
  created_at : ℤ := 0
deriving DecidableEq, Repr

/-- Embedding of ApifyDB.save_apify_data (src/apify_db.py lines 75-155): a
payload with a falsy asin is rejected; otherwise INSERT OR REPLACE on the
unique asin with the reconciled price summary. -/
def save_apify_data (d : ApifyPayload) (now : ℤ) (cache : List CacheEntry) :
    List CacheEntry × Bool :=
  match d.asin with
  | none => (cache, false)
  | some a =>
    if a == "" then (cache, false)
    else
      let s := reconcileSummary d
      let e : CacheEntry :=
        { asin := a, price_min := s.price_min, price_max := s.price_max,
          price_min_date := s.price_min_date, price_max_date := s.price_max_date,
          price := d.price, raw_data := d, created_at := now }
      (cache.filter (fun x => !(x.asin == a)) ++ [e], true)

/-- Freshness condition created_at >= now - days of the cache queries, with
days converted to seconds. -/
def isFreshAt (now days : ℤ) (e : CacheEntry) : Bool :=
  decide (now - days * 86400 ≤ e.created_at)

/-- Embedding of ApifyDB.is_cached (src/apify_db.py lines 256-274). -/
def is_cached (a : String) (days now : ℤ) (cache : List CacheEntry) : Bool :=
  cache.any (fun e => e.asin == a && isFreshAt now days e)

/-- Embedding of ApifyDB.get_cached_data (src/apify_db.py lines 221-241):
the row with the asin, with no freshness condition. -/
def get_cached_data (a : String) (cache : List CacheEntry) : Option CacheEntry :=
  cache.find? (fun e => e.asin == a)

/-- Embedding of ApifyDB.get_uncached_asins (src/apify_db.py lines 276-302):
the input identifiers that have no fresh cache row, in input order. -/
def get_uncached_asins (asins : List String) (days now : ℤ)
    (cache : List CacheEntry) : List String :=
  asins.filter (fun a => !(is_cached a days now cache))

/-- Embedding of ApifyDB.get_cached_data_batch (src/apify_db.py lines
304-329): the fresh rows among the requested identifiers. -/
def get_cached_data_batch (asins : List String) (days now : ℤ)
    (cache : List CacheEntry) : List CacheEntry :=
  cache.filter (fun e => asins.contains e.asin && isFreshAt now days e)

/-- Embedding of ApifyDB.clean_expired_cache (src/apify_db.py lines 361-384):
delete rows with created_at < now - days, returning the deleted count. -/
def clean_expired_cache (days now : ℤ) (cache : List CacheEntry) :
    List CacheEntry × ℕ :=
  (cache.filter (fun e => !decide (e.created_at < now - days * 86400)),
    (cache.filter (fun e => decide (e.created_at < now - days * 86400))).length)

/-- Result shape of the price-history fetcher. get_price_history omits the
from_cache key on the API path, which reads as false. -/
structure PriceHistoryOut where
  asin : Option String
  price_min : Option ℚ
  price_max : Option ℚ
  price_min_date : Option String
  price_max_date : Option String
  history_count : ℕ
  from_cache : Bool
deriving DecidableEq, Repr

/-- Embedding of ApifyPriceFetcher._format_cached_data (src/apify_price.py
lines 112-122). -/
def format_cached_data (e : CacheEntry) : PriceHistoryOut :=
  { asin := some e.asin, price_min := e.price_min, price_max := e.price_max,
    price_min_date := e.price_min_date, price_max_date := e.price_max_date,
    history_count := 0, from_cache := true }

/-- Embedding of ApifyPriceFetcher._parse_price_history (src/apify_price.py
lines 188-246). -/
def parse_price_history (d : ApifyPayload) : Option PriceHistoryOut :=
  match d.asin with
  | none => none
  | some a =>
    if a == "" then none
    else
      match minByPrice (validPrices (chosenHistory d)),
          maxByPrice (validPrices (chosenHistory d)) with
      | some mn, some mx =>
        some { asin := some a, price_min := some mn.1, price_max := some mx.1,
               price_min_date := some mn.2, price_max_date := some mx.2,
               history_count := (validPrices (chosenHistory d)).length,
               from_cache := false }
      | _, _ =>
        some { asin := some a, price_min := none, price_max := none,
               price_min_date := none, price_max_date := none,
               history_count := (validPrices (chosenHistory d)).length,
               from_cache := false }

/-- Embedding of ApifyPriceFetcher.get_price_history (src/apify_price.py
lines 70-110). The external scraper call is a parameter: None models a
failed or empty fetch (including the raw_data key missing), some raw the
raw_data of a successful one. The fresh-cache path returns the cached row
without touching the store; the fetch path saves the payload before parsing
it. -/
def get_price_history (a : String) (cache : List CacheEntry) (now cache_days : ℤ)
    (apiResult : Option ApifyPayload) : List CacheEntry × Option PriceHistoryOut :=
  if is_cached a cache_days now cache then
    match get_cached_data a cache with
    | some c => (cache, some (format_cached_data c))
    | none =>
      match apiResult with
      | none => (cache, none)
      | some raw => ((save_apify_data raw now cache).1, parse_price_history raw)
  else
    match apiResult with
    | none => (cache, none)
    | some raw => ((save_apify_data raw now cache).1, parse_price_history raw)

/-! ### Adaptive concurrency control (src/ai_analyzer.py lines 35-93 and
196-200) -/

/-- Mutable concurrency state of GeminiProductAnalyzer. -/
structure AnalyzerState where
  current_concurrent : ℕ
  consecutive_successes : ℕ
  max_concurrent : ℕ
deriving DecidableEq, Repr

/-- Number of consecutive successes that triggers an increase
(self._success_threshold). -/
def successThreshold : ℕ := 3

/-- Fixed increase step applied at the threshold. -/
def concurrencyStep : ℕ := 2

/-- Concurrency every new batch starts from (filter_products_async resets
self._current_concurrent to 5). -/
def concurrencyFloor : ℕ := 5

/-- Substring test over character lists: Python in for strings. -/
def containsSub (pat : List Char) : List Char → Bool
  | [] => pat.isEmpty
  | c :: rest => pat.isPrefixOf (c :: rest) || containsSub pat rest

/-- Error markers classified as transient server conditions
(src/ai_analyzer.py line 87). -/
def serverErrorMarkers : List String := ["503", "504", "RESOURCE_EXHAUSTED", "timeout"]

/-- Failure classification: any marker occurring in the error message. -/
def isServerError (msg : String) : Bool :=
  serverErrorMarkers.any (fun m => containsSub m.toList msg.toList)

/-- Embedding of GeminiProductAnalyzer._adjust_concurrency (src/ai_analyzer.py
lines 72-93). -/
def adjust_concurrency (s : AnalyzerState) (success : Bool) (error_msg : String) :
    AnalyzerState :=
  if success then
    let streak := s.consecutive_successes + 1
    if successThreshold ≤ streak then
      { s with
        current_concurrent := min (s.current_concurrent + concurrencyStep) s.max_concurrent
        consecutive_successes := 0 }
    else { s with consecutive_successes := streak }
  else if isServerError error_msg then
    { s with
      consecutive_successes := 0
      current_concurrent := max 1 (s.current_concurrent / 2) }
  else s

/-- Reset performed at the top of filter_products_async (src/ai_analyzer.py
lines 196-200). -/
def resetForBatch (s : AnalyzerState) : AnalyzerState :=
  { s with current_concurrent := concurrencyFloor, consecutive_successes := 0 }

/-! ## Shared helper lemmas -/

theorem markIf_getElem (f : AsinRecord → Bool) (tag : FilterTag)
    (store : List AsinRecord) (i : ℕ) :
    (markIf f tag store)[i]? =
      (store[i]?).map (fun r => if f r then { r with filter_status := some tag } else r) := by
  simp [markIf]

theorem markIf_keeps_tagged {f : AsinRecord → Bool} {tag : FilterTag}
    {store : List AsinRecord} {i : ℕ} {r : AsinRecord}
    (hf : ∀ x, f x = true → x.filter_status.isNone = true)
    (hi : store[i]? = some r) (hr : r.filter_status ≠ none) :
    (markIf f tag store)[i]? = some r := by
  rw [markIf_getElem, hi]
  have hfr : f r = false := by
    cases hfr : f r
    · rfl
    · exact absurd (Option.isNone_iff_eq_none.mp (hf r hfr)) hr
  simp [hfr]

theorem sponsoredHit_isNone (kw : String) (x : AsinRecord)
    (hx : sponsoredHit kw x = true) : x.filter_status.isNone = true := by
  simp only [sponsoredHit, Bool.and_eq_true] at hx
  exact hx.2

theorem salesHit_isNone (kw : String) (t : ℤ) (x : AsinRecord)
    (hx : salesHit kw t x = true) : x.filter_status.isNone = true := by
  simp only [salesHit, Bool.and_eq_true] at hx
  exact hx.2

theorem catHit_isNone (kw t : String) (x : AsinRecord)
    (hx : catHit kw t x = true) : x.filter_status.isNone = true := by
  simp only [catHit, Bool.and_eq_true] at hx
  exact hx.2

theorem priceHit_isNone (kw : String) (p : ℚ) (x : AsinRecord)
    (hx : priceHit kw p x = true) : x.filter_status.isNone = true := by
  simp only [priceHit, Bool.and_eq_true] at hx
  exact hx.2

theorem dateHit_isNone (kw : String) (c : ℤ) (x : AsinRecord)
    (hx : dateHit kw c x = true) : x.filter_status.isNone = true := by
  simp only [dateHit, Bool.and_eq_true] at hx
  exact hx.2

theorem monthsHit_isNone (kw : String) (m : ℤ) (x : AsinRecord)
    (hx : monthsHit kw m x = true) : x.filter_status.isNone = true := by
  simp only [monthsHit, Bool.and_eq_true] at hx
  exact hx.2

/-! ## C7: adaptive concurrency state machine -/

/-- C7: a success increments the streak; reaching the threshold of 3 raises
concurrency by the step of 2 capped at the configured ceiling and resets the
streak; a transient server failure halves concurrency floored at 1 and
resets the streak; a non-transient failure changes nothing; a new batch
resets concurrency to the floor of 5. -/
theorem adaptive_concurrency_spec (s : AnalyzerState) (msg : String) :
    (s.consecutive_successes + 1 < successThreshold →
      adjust_concurrency s true msg =
        { s with consecutive_successes := s.consecutive_successes + 1 }) ∧
    (successThreshold ≤ s.consecutive_successes + 1 →
      adjust_concurrency s true msg =
        { s with
          current_concurrent := min (s.current_concurrent + concurrencyStep) s.max_concurrent
          consecutive_successes := 0 }) ∧
    (isServerError msg = true →
      adjust_concurrency s false msg =
        { s with
          consecutive_successes := 0
          current_concurrent := max 1 (s.current_concurrent / 2) }) ∧
    (isServerError msg = false → adjust_concurrency s false msg = s) ∧
    resetForBatch s =
      { s with current_concurrent := concurrencyFloor, consecutive_successes := 0 } ∧
    successThreshold = 3 ∧ concurrencyStep = 2 ∧ concurrencyFloor = 5 := by
  refine ⟨fun h => ?_, fun h => ?_, fun h => ?_, fun h => ?_, rfl, rfl, rfl, rfl⟩
  · rw [adjust_concurrency]
    simp [Nat.not_le.mpr h]
  · rw [adjust_concurrency]
    simp [h]
  · rw [adjust_concurrency]
    simp [h]
  · rw [adjust_concurrency]
    simp [h]

/-- Witness for C7 at concrete states: the third success raises 7 to 9 under
ceiling 50, a 503 failure halves 7 to 3, a parse failure leaves the state
unchanged. -/
theorem adaptive_concurrency_spec_witness :
    adjust_concurrency ⟨7, 2, 50⟩ true "" = ⟨9, 0, 50⟩ ∧
    adjust_concurrency ⟨5, 0, 50⟩ true "" = ⟨5, 1, 50⟩ ∧
    adjust_concurrency ⟨7, 0, 50⟩ false "server error 503" = ⟨3, 0, 50⟩ ∧
    adjust_concurrency ⟨7, 1, 50⟩ false "judge output not valid json" = ⟨7, 1, 50⟩ ∧
    resetForBatch ⟨9, 2, 50⟩ = ⟨5, 0, 50⟩ := by
  refine ⟨?_, ?_, ?_, ?_, ?_⟩
  · have h := (adaptive_concurrency_spec ⟨7, 2, 50⟩ "").2.1 (by decide)
    exact h.trans (by decide)
  · have h := (adaptive_concurrency_spec ⟨5, 0, 50⟩ "").1 (by decide)
    exact h.trans (by decide)
  · have h := (adaptive_concurrency_spec ⟨7, 0, 50⟩ "server error 503").2.2.1 (by decide)
    exact h.trans (by decide)
  · exact (adaptive_concurrency_spec ⟨7, 1, 50⟩ "judge output not valid json").2.2.2.1 (by decide)
  · exact (adaptive_concurrency_spec ⟨9, 2, 50⟩ "").2.2.2.2.1

/-! ## C2: filter stages never overwrite an existing tag -/

/-- C2: every filter stage (sponsored, category, sales, price, listing-date)
leaves a record whose filter_status is already set completely unchanged, so
at most one tag is ever set and the first stage whose criterion a record
fails determines its tag. -/
theorem filter_stages_first_match_wins (kw : String) (max_sales months today : ℤ)
    (max_price : ℚ) (store : List AsinRecord) (i : ℕ) (r : AsinRecord)
    (hi : store[i]? = some r) (hr : r.filter_status ≠ none) :
    (filter_sponsored_asins kw store).1[i]? = some r ∧
    (filter_low_sales_asins kw max_sales store).1[i]? = some r ∧
    (filter_by_top_category kw store).1[i]? = some r ∧
    (filter_by_price kw max_price store).1[i]? = some r ∧
    (filter_by_listing_date kw months today store).1[i]? = some r := by
  refine ⟨?_, ?_, ?_, ?_, ?_⟩
  · exact markIf_keeps_tagged (sponsoredHit_isNone kw) hi hr
  · exact markIf_keeps_tagged (salesHit_isNone kw max_sales) hi hr
  · rw [filter_by_top_category]
    by_cases h0 : (store.filter (isUnfiltered kw)).length = 0
    · simp only [h0, if_pos rfl]
      exact hi
    · rcases htc : topCategory kw store with _ | ⟨t, n⟩
      · simp only [if_neg h0, htc]
        exact hi
      · simp only [if_neg h0, htc]
        exact markIf_keeps_tagged (catHit_isNone kw t) hi hr
  · rw [filter_by_price]
    by_cases h0 : (store.filter (isUnfiltered kw)).length = 0
    · simp only [h0, if_pos rfl]
      exact hi
    · simp only [if_neg h0]
      exact markIf_keeps_tagged (priceHit_isNone kw max_price) hi hr
  · rw [filter_by_listing_date]
    by_cases h0 : (store.filter (isUnfiltered kw)).length = 0
    · simp only [h0, if_pos rfl]
      exact hi
    · simp only [if_neg h0]
      exact markIf_keeps_tagged (monthsHit_isNone kw months)
        (markIf_keeps_tagged (dateHit_isNone kw (today - months * 30)) hi hr) hr

/-- Witness for C2: a record already tagged sponsored survives every stage
untouched. -/
theorem filter_stages_first_match_wins_witness :
    (filter_low_sales_asins "k" 0
        [{ asin := "W", keyword := "k", sales_volume := some 7,
           filter_status := some FilterTag.sponsored }]).1[0]? =
      some { asin := "W", keyword := "k", sales_volume := some 7,
             filter_status := some FilterTag.sponsored } := by
  exact (filter_stages_first_match_wins "k" 0 0 0 0 _ 0 _ rfl (by decide)).2.1

/-! ## C3: sales and price filters tag strictly-greater values only -/

theorem markIf_skips {f : AsinRecord → Bool} {tag : FilterTag}
    {store : List AsinRecord} {i : ℕ} {r : AsinRecord}
    (hi : store[i]? = some r) (hfr : f r = false) :
    (markIf f tag store)[i]? = some r := by
  rw [markIf_getElem, hi]
  simp [hfr]

theorem markIf_hits {f : AsinRecord → Bool} {tag : FilterTag}
    {store : List AsinRecord} {i : ℕ} {r : AsinRecord}
    (hi : store[i]? = some r) (hfr : f r = true) :
    (markIf f tag store)[i]? = some { r with filter_status := some tag } := by
  rw [markIf_getElem, hi]
  simp [hfr]

theorem unfiltered_total_pos {kw : String} {store : List AsinRecord} {i : ℕ}
    {r : AsinRecord} (hi : store[i]? = some r)
    (h1 : r.filter_status = none) (h2 : r.keyword = kw) :
    ¬ (store.filter (isUnfiltered kw)).length = 0 := by
  obtain ⟨hlt, heq⟩ := List.getElem?_eq_some_iff.mp hi
  have hmem : r ∈ store := heq ▸ List.getElem_mem hlt
  have hf : r ∈ store.filter (isUnfiltered kw) :=
    List.mem_filter.mpr ⟨hmem, by simp [isUnfiltered, h1, h2]⟩
  intro hlen
  rw [List.length_eq_zero] at hlen
  rw [hlen] at hf
  exact absurd hf (List.not_mem_nil r)

/-- C3 counterexample: with threshold -1, a record whose sales volume is
exactly 0 (and whose filter_status is None) is tagged sales_filtered, while
the claim promises that a zero value keeps filter_status = None for every
threshold. -/
theorem sales_filter_tags_zero_at_negative_threshold :
    ({ asin := "Y", keyword := "k", sales_volume := some 0 } : AsinRecord).filter_status
        = none ∧
    (filter_low_sales_asins "k" (-1)
        [{ asin := "Y", keyword := "k", sales_volume := some 0 }]).1[0]? =
      some { asin := "Y", keyword := "k", sales_volume := some 0,
             filter_status := some FilterTag.salesFiltered } := by
  constructor
  · rfl
  · exact @markIf_hits (salesHit "k" (-1)) FilterTag.salesFiltered
      [{ asin := "Y", keyword := "k", sales_volume := some 0 }] 0
      { asin := "Y", keyword := "k", sales_volume := some 0 } rfl (by decide)

/-- C3 amended: the sales and price filters tag exactly the unfiltered
records of the keyword whose value is strictly greater than the threshold; a
null value or a value equal to the threshold always keeps filter_status =
None, and a zero value keeps it whenever the threshold is nonnegative (a
negative threshold excludes zero, since zero then compares strictly
greater). -/
theorem sales_price_filters_strict_threshold (kw : String) (t : ℤ) (p : ℚ)
    (store : List AsinRecord) (i : ℕ) (r : AsinRecord) (hi : store[i]? = some r) :
    (∀ v, r.sales_volume = some v → v ≤ t →
      (filter_low_sales_asins kw t store).1[i]? = some r) ∧
    (r.sales_volume = none → (filter_low_sales_asins kw t store).1[i]? = some r) ∧
    (r.filter_status = none → r.keyword = kw →
      ∀ v, r.sales_volume = some v → t < v →
        (filter_low_sales_asins kw t store).1[i]? =
          some { r with filter_status := some FilterTag.salesFiltered }) ∧
    (0 ≤ t → r.sales_volume = some 0 →
      (filter_low_sales_asins kw t store).1[i]? = some r) ∧
    (∀ v, r.price = some v → v ≤ p →
      (filter_by_price kw p store).1[i]? = some r) ∧
    (r.price = none → (filter_by_price kw p store).1[i]? = some r) ∧
    (r.filter_status = none → r.keyword = kw →
      ∀ v, r.price = some v → p < v →
        (filter_by_price kw p store).1[i]? =
          some { r with filter_status := some FilterTag.priceFiltered }) ∧
    (0 ≤ p → r.price = some 0 → (filter_by_price kw p store).1[i]? = some r) := by
  have hsalesSkip : ∀ v, r.sales_volume = some v → v ≤ t →
      (filter_low_sales_asins kw t store).1[i]? = some r := by
    intro v hv hvt
    have hfr : salesHit kw t r = false := by
      simp only [salesHit, hv]
      rw [decide_eq_false (not_lt.mpr hvt)]
      simp
    exact markIf_skips hi hfr
  have hpriceSkip : ∀ (hfr : priceHit kw p r = false),
      (filter_by_price kw p store).1[i]? = some r := by
    intro hfr
    rw [filter_by_price]
    by_cases h0 : (store.filter (isUnfiltered kw)).length = 0
    · simp only [h0, if_pos rfl]
      exact hi
    · simp only [if_neg h0]
      exact markIf_skips hi hfr
  refine ⟨hsalesSkip, ?_, ?_, ?_, ?_, ?_, ?_, ?_⟩
  · intro hv
    exact markIf_skips hi (by simp [salesHit, hv])
  · intro h1 h2 v hv hvt
    have hfr : salesHit kw t r = true := by
      simp [salesHit, hv, hvt, h2, h1, Option.isNone]
    exact markIf_hits hi hfr
  · intro ht hv
    exact hsalesSkip 0 hv ht
  · intro v hv hvp
    refine hpriceSkip ?_
    simp only [priceHit, hv]
    rw [decide_eq_false (not_lt.mpr hvp)]
    simp
  · intro hv
    exact hpriceSkip (by simp [priceHit, hv])
  · intro h1 h2 v hv hvp
    rw [filter_by_price]
    simp only [if_neg (unfiltered_total_pos hi h1 h2)]
    have hfr : priceHit kw p r = true := by
      simp [priceHit, hv, hvp, h2, h1, Option.isNone]
    exact markIf_hits hi hfr
  · intro hp hv
    refine hpriceSkip ?_
    simp only [priceHit, hv]
    rw [decide_eq_false (not_lt.mpr hp)]
    simp

/-- Record with the boundary sales value 100. -/
def c3recA : AsinRecord := { asin := "A", keyword := "k", sales_volume := some 100 }

/-- Record with sales value 101, strictly above threshold 100. -/
def c3recB : AsinRecord := { asin := "B", keyword := "k", sales_volume := some 101 }

/-- Record with a null price. -/
def c3recC : AsinRecord := { asin := "C", keyword := "k", price := none }

/-- Witness for C3 amended: the boundary value 100 is kept at threshold 100,
101 is tagged, a null price is kept. -/
theorem sales_price_filters_strict_threshold_witness :
    (filter_low_sales_asins "k" 100 [c3recA]).1[0]? = some c3recA ∧
    (filter_low_sales_asins "k" 100 [c3recB]).1[0]? =
      some { c3recB with filter_status := some FilterTag.salesFiltered } ∧
    (filter_by_price "k" 60 [c3recC]).1[0]? = some c3recC := by
  refine ⟨?_, ?_, ?_⟩
  · exact (sales_price_filters_strict_threshold "k" 100 0 [c3recA] 0 c3recA rfl).1 100 rfl
      (by decide)
  · exact (sales_price_filters_strict_threshold "k" 100 0 [c3recB] 0 c3recB rfl).2.2.1 rfl rfl
      101 rfl (by decide)
  · exact (sales_price_filters_strict_threshold "k" 0 60 [c3recC] 0 c3recC rfl).2.2.2.2.2.1 rfl

/-! ## C6: uncached query and batch get against the freshness window -/

theorem is_cached_iff (a : String) (days now : ℤ) (cache : List CacheEntry) :
    is_cached a days now cache = true ↔
      ∃ e, e ∈ cache ∧ e.asin = a ∧ now - e.created_at ≤ days * 86400 := by
  simp only [is_cached, List.any_eq_true, Bool.and_eq_true, beq_iff_eq, isFreshAt,
    decide_eq_true_eq]
  constructor
  · rintro ⟨e, he, hea, hf⟩
    exact ⟨e, he, hea, by omega⟩
  · rintro ⟨e, he, hea, hf⟩
    exact ⟨e, he, hea, by omega⟩

/-- C6: get_uncached_asins returns exactly the input identifiers with no
cache entry captured within the last days days, and get_cached_data_batch
returns only entries captured within the window. -/
theorem cache_uncached_and_batch_spec (asins : List String) (days now : ℤ)
    (cache : List CacheEntry) :
    (∀ a, a ∈ get_uncached_asins asins days now cache ↔
       a ∈ asins ∧ ¬ ∃ e, e ∈ cache ∧ e.asin = a ∧ now - e.created_at ≤ days * 86400) ∧
    (∀ e, e ∈ get_cached_data_batch asins days now cache →
       e ∈ cache ∧ e.asin ∈ asins ∧ now - e.created_at ≤ days * 86400) := by
  constructor
  · intro a
    rw [get_uncached_asins, List.mem_filter, Bool.not_eq_true']
    constructor
    · rintro ⟨ha, h⟩
      refine ⟨ha, fun hex => ?_⟩
      rw [(is_cached_iff a days now cache).mpr hex] at h
      cases h
    · rintro ⟨ha, hno⟩
      refine ⟨ha, ?_⟩
      cases hic : is_cached a days now cache
      · rfl
      · exact absurd ((is_cached_iff a days now cache).mp hic) hno
  · intro e he
    simp only [get_cached_data_batch, List.mem_filter, Bool.and_eq_true, isFreshAt,
      decide_eq_true_eq] at he
    obtain ⟨hmem, hcontains, hfresh⟩ := he
    refine ⟨hmem, ?_, by omega⟩
    simpa using hcontains

/-- Witness for C6: with a 20-day window at time 1728000, asin b (absent) is
uncached while the fresh entry for asin a is returned by the batch get. -/
theorem cache_uncached_and_batch_spec_witness :
    "b" ∈ get_uncached_asins ["a", "b"] 20 1728000 [{ asin := "a", created_at := 0 }] ∧
    (({ asin := "a", created_at := 0 } : CacheEntry) ∈
        ([{ asin := "a", created_at := 0 }] : List CacheEntry) ∧
      ("a" : String) ∈ ["a", "b"] ∧
      (1728000 : ℤ) - ({ asin := "a", created_at := 0 } : CacheEntry).created_at ≤ 20 * 86400) := by
  constructor
  · exact (cache_uncached_and_batch_spec ["a", "b"] 20 1728000
      [{ asin := "a", created_at := 0 }]).1 "b" |>.mpr (by decide)
  · exact (cache_uncached_and_batch_spec ["a", "b"] 20 1728000
      [{ asin := "a", created_at := 0 }]).2 { asin := "a", created_at := 0 } (by decide)

/-! ## C5: upsert of an existing (identifier, keyword) pair -/

/-- Stored record already tagged by a filter stage. -/
def c5old : AsinRecord :=
  { asin := "A1", keyword := "k", name := some "old",
    filter_status := some FilterTag.sponsored }

/-- Re-discovered item for the same (identifier, keyword) pair. -/
def c5item : RawItem := { asin := some "A1", name := some "new" }

/-- C5 counterexample: INSERT OR REPLACE writes the schema default NULL into
filter_status, so re-discovering a tagged (identifier, keyword) pair resets
its filter_status to None instead of leaving it unchanged. -/
theorem save_asins_rediscovery_clears_filter_status :
    c5old.filter_status = some FilterTag.sponsored ∧
    ((save_asins [c5item] "k" "s" "v" 100 [c5old]).1.map (fun r => r.filter_status)) =
      [none] ∧
    ((save_asins [c5item] "k" "s" "v" 100 [c5old]).1.map (fun r => r.name)) =
      [some "new"] := by
  refine ⟨rfl, ?_, ?_⟩ <;> decide

/-- C5 amended: upserting an item whose (identifier, keyword) pair already
exists replaces the whole row: descriptive fields take the new values, while
filter_status (and every enrichment column) is reset to None, because INSERT
OR REPLACE writes the schema defaults for columns absent from its column
list; rows with any other (identifier, keyword) pair are untouched. -/
theorem save_asins_upsert_spec (store : List AsinRecord) (item : RawItem)
    (kw st sv : String) (now : ℤ) (a : String)
    (ha : item.asin = some a) (hne : ¬ a = "") :
    (save_asins [item] kw st sv now store).2 = 1 ∧
    (save_asins [item] kw st sv now store).1 =
      store.filter (fun r => !(r.asin == a && r.keyword == kw)) ++
        [mkAsinRecord item kw st sv now a] ∧
    (mkAsinRecord item kw st sv now a).filter_status = none ∧
    (mkAsinRecord item kw st sv now a).name = item.name ∧
    (mkAsinRecord item kw st sv now a).brand = item.brand ∧
    (mkAsinRecord item kw st sv now a).price = item.price ∧
    (mkAsinRecord item kw st sv now a).category_sub = item.category_sub ∧
    (∀ r ∈ store, ¬(r.asin = a ∧ r.keyword = kw) →
      r ∈ (save_asins [item] kw st sv now store).1) ∧
    (∀ r ∈ (save_asins [item] kw st sv now store).1, r.asin = a → r.keyword = kw →
      r = mkAsinRecord item kw st sv now a) := by
  have hbeq : (a == "") = false := by
    simp [hne]
  have heq : (save_asins [item] kw st sv now store).1 =
      store.filter (fun r => !(r.asin == a && r.keyword == kw)) ++
        [mkAsinRecord item kw st sv now a] := by
    simp [save_asins, upsertAsin, ha, hbeq, hne]
  have hcnt : (save_asins [item] kw st sv now store).2 = 1 := by
    simp [save_asins, upsertAsin, ha, hbeq, hne]
  refine ⟨hcnt, heq, rfl, rfl, rfl, rfl, rfl, ?_, ?_⟩
  · intro r hr hnk
    rw [heq]
    refine List.mem_append_left _ (List.mem_filter.mpr ⟨hr, ?_⟩)
    have : (r.asin == a && r.keyword == kw) = false := by
      rw [Bool.and_eq_false_iff]
      rcases not_and_or.mp hnk with h | h
      · exact Or.inl (beq_eq_false_iff_ne.mpr h)
      · exact Or.inr (beq_eq_false_iff_ne.mpr h)
    simp [this]
  · intro r hr h1 h2
    rw [heq] at hr
    rcases List.mem_append.mp hr with h | h
    · have hfalse := (List.mem_filter.mp h).2
      rw [Bool.not_eq_true', Bool.and_eq_false_iff] at hfalse
      rcases hfalse with hb | hb
      · exact absurd (beq_iff_eq.mpr h1) (by simp [hb])
      · exact absurd (beq_iff_eq.mpr h2) (by simp [hb])
    · simpa using h

/-- Stored record tagged category_filtered, to be re-discovered. -/
def c5wOld : AsinRecord :=
  { asin := "Z9", keyword := "k", brand := some "oldbrand",
    filter_status := some FilterTag.categoryFiltered }

/-- Re-discovered item carrying a new brand. -/
def c5wItem : RawItem := { asin := some "Z9", brand := some "newbrand" }

/-- Witness for C5 amended at a concrete store: the tagged row is replaced by
the freshly built row, whose filter_status is None. -/
theorem save_asins_upsert_spec_witness :
    (save_asins [c5wItem] "k" "s" "v" 7 [c5wOld]).1 =
      [mkAsinRecord c5wItem "k" "s" "v" 7 "Z9"] ∧
    (mkAsinRecord c5wItem "k" "s" "v" 7 "Z9").filter_status = none := by
  have h := save_asins_upsert_spec [c5wOld] c5wItem "k" "s" "v" 7 "Z9" rfl (by decide)
  refine ⟨?_, h.2.2.1⟩
  rw [h.2.1]
  decide

/-! ## C4: price reconciliation in the cache save -/

theorem foldl_minBy_spec (l : List (ℚ × String)) (init : ℚ × String) :
    (List.foldl (fun best q => if q.1 < best.1 then q else best) init l = init ∨
      List.foldl (fun best q => if q.1 < best.1 then q else best) init l ∈ l) ∧
    (List.foldl (fun best q => if q.1 < best.1 then q else best) init l).1 ≤ init.1 ∧
    ∀ q ∈ l, (List.foldl (fun best q => if q.1 < best.1 then q else best) init l).1 ≤ q.1 := by
  induction l generalizing init with
  | nil => simp
  | cons x xs ih =>
    simp only [List.foldl_cons]
    obtain ⟨hmem, hle, hall⟩ := ih (if x.1 < init.1 then x else init)
    have hnx : (if x.1 < init.1 then x else init).1 ≤ init.1 ∧
        (if x.1 < init.1 then x else init).1 ≤ x.1 := by
      by_cases h : x.1 < init.1
      · simp only [if_pos h]
        exact ⟨le_of_lt h, le_refl _⟩
      · simp only [if_neg h]
        exact ⟨le_refl _, le_of_not_lt h⟩
    refine ⟨?_, le_trans hle hnx.1, ?_⟩
    · rcases hmem with h | h
      · rw [h]
        by_cases hx : x.1 < init.1
        · exact Or.inr (by simp [hx])
        · exact Or.inl (by simp [hx])
      · exact Or.inr (List.mem_cons_of_mem x h)
    · intro q hq
      rcases List.mem_cons.mp hq with rfl | hq2
      · exact le_trans hle hnx.2
      · exact hall q hq2

theorem foldl_maxBy_spec (l : List (ℚ × String)) (init : ℚ × String) :
    (List.foldl (fun best q => if best.1 < q.1 then q else best) init l = init ∨
      List.foldl (fun best q => if best.1 < q.1 then q else best) init l ∈ l) ∧
    init.1 ≤ (List.foldl (fun best q => if best.1 < q.1 then q else best) init l).1 ∧
    ∀ q ∈ l, q.1 ≤ (List.foldl (fun best q => if best.1 < q.1 then q else best) init l).1 := by
  induction l generalizing init with
  | nil => simp
  | cons x xs ih =>
    simp only [List.foldl_cons]
    obtain ⟨hmem, hle, hall⟩ := ih (if init.1 < x.1 then x else init)
    have hnx : init.1 ≤ (if init.1 < x.1 then x else init).1 ∧
        x.1 ≤ (if init.1 < x.1 then x else init).1 := by
      by_cases h : init.1 < x.1
      · simp only [if_pos h]
        exact ⟨le_of_lt h, le_refl _⟩
      · simp only [if_neg h]
        exact ⟨le_refl _, le_of_not_lt h⟩
    refine ⟨?_, le_trans hnx.1 hle, ?_⟩
    · rcases hmem with h | h
      · rw [h]
        by_cases hx : init.1 < x.1
        · exact Or.inr (by simp [hx])
        · exact Or.inl (by simp [hx])
      · exact Or.inr (List.mem_cons_of_mem x h)
    · intro q hq
      rcases List.mem_cons.mp hq with rfl | hq2
      · exact le_trans hnx.2 hle
      · exact hall q hq2

theorem minByPrice_spec (l : List (ℚ × String)) (p : ℚ × String)
    (h : minByPrice l = some p) : p ∈ l ∧ ∀ q ∈ l, p.1 ≤ q.1 := by
  cases l with
  | nil => cases h
  | cons x xs =>
    rw [minByPrice] at h
    obtain ⟨hmem, hle, hall⟩ := foldl_minBy_spec xs x
    have hp := Option.some_injective _ h
    constructor
    · rcases hmem with h2 | h2
      · rw [← hp, h2]
        exact List.mem_cons_self x xs
      · rw [← hp]
        exact List.mem_cons_of_mem x h2
    · intro q hq
      rcases List.mem_cons.mp hq with rfl | hq2
      · rw [← hp]
        exact hle
      · rw [← hp]
        exact hall q hq2

theorem maxByPrice_spec (l : List (ℚ × String)) (p : ℚ × String)
    (h : maxByPrice l = some p) : p ∈ l ∧ ∀ q ∈ l, q.1 ≤ p.1 := by
  cases l with
  | nil => cases h
  | cons x xs =>
    rw [maxByPrice] at h
    obtain ⟨hmem, hle, hall⟩ := foldl_maxBy_spec xs x
    have hp := Option.some_injective _ h
    constructor
    · rcases hmem with h2 | h2
      · rw [← hp, h2]
        exact List.mem_cons_self x xs
      · rw [← hp]
        exact List.mem_cons_of_mem x h2
    · intro q hq
      rcases List.mem_cons.mp hq with rfl | hq2
      · rw [← hp]
        exact hle
      · rw [← hp]
        exact hall q hq2

theorem chosenHistory_eq_nil_iff (d : ApifyPayload) :
    chosenHistory d = [] ↔ hasHistory d = false := by
  rw [chosenHistory, hasHistory]
  cases ha : d.price_amazon_history.isEmpty <;>
    cases hb : d.price_buybox_history.isEmpty <;>
      cases hc : d.price_new_history.isEmpty <;>
        simp_all [List.isEmpty_iff]

/-- Payload with a one-point series whose price is 0 (no valid point) and a
provider-supplied summary of 99/99. -/
def c4a : ApifyPayload :=
  { asin := some "A", price_min := some 99, price_max := some 99,
    price_min_date := some "2020-01-01", price_max_date := some "2020-01-02",
    price_amazon_history := [{ price := some 0, date := "2024-01-01" }] }

/-- Same payload with a different provider-supplied summary minimum. -/
def c4b : ApifyPayload :=
  { c4a with price_min := some 77 }

/-- C4 counterexample: both payloads carry a raw price series, yet the stored
price_min is the provider-supplied summary (99 respectively 77), not a value
recomputed from the series — the series has no positive price, so the code
falls back to the summary instead of overriding it. -/
theorem save_apify_series_present_summary_not_overridden :
    hasHistory c4a = true ∧ hasHistory c4b = true ∧
    (save_apify_data c4a 0 []).1.map (fun e => e.price_min) = [some 99] ∧
    (save_apify_data c4b 0 []).1.map (fun e => e.price_min) = [some 77] := by
  refine ⟨rfl, rfl, ?_, ?_⟩ <;> decide

/-- C4 amended: the cache save recomputes price_min/price_max and their dates
from the first present raw series (Amazon before BuyBox before New) and
those recomputed values override the provider-supplied summary, provided the
series has at least one positive price; when no series is present, or the
present series has no positive price, the provider-supplied summary is
stored unchanged (a recomputed date that is empty also falls back to the
supplied date); the row is stored under the payload identifier with the
capture timestamp set to now. -/
theorem save_apify_reconciliation_spec (d : ApifyPayload) (now : ℤ)
    (cache : List CacheEntry) (a : String)
    (ha : d.asin = some a) (hne : ¬ a = "") :
    (hasHistory d = false →
      reconcileSummary d =
        ⟨d.price_min, d.price_max, d.price_min_date, d.price_max_date⟩) ∧
    (validPrices (chosenHistory d) = [] →
      reconcileSummary d =
        ⟨d.price_min, d.price_max, d.price_min_date, d.price_max_date⟩) ∧
    (∀ mn, minByPrice (validPrices (chosenHistory d)) = some mn →
      (reconcileSummary d).price_min = some mn.1 ∧
      mn ∈ validPrices (chosenHistory d) ∧
      (∀ q ∈ validPrices (chosenHistory d), mn.1 ≤ q.1) ∧
      (reconcileSummary d).price_min_date =
        (if mn.2 = "" then d.price_min_date else some mn.2)) ∧
    (∀ mx, maxByPrice (validPrices (chosenHistory d)) = some mx →
      (reconcileSummary d).price_max = some mx.1 ∧
      mx ∈ validPrices (chosenHistory d) ∧
      (∀ q ∈ validPrices (chosenHistory d), q.1 ≤ mx.1) ∧
      (reconcileSummary d).price_max_date =
        (if mx.2 = "" then d.price_max_date else some mx.2)) ∧
    (save_apify_data d now cache).1 =
      cache.filter (fun x => !(x.asin == a)) ++
        [{ asin := a, price_min := (reconcileSummary d).price_min,
           price_max := (reconcileSummary d).price_max,
           price_min_date := (reconcileSummary d).price_min_date,
           price_max_date := (reconcileSummary d).price_max_date,
           price := d.price, raw_data := d, created_at := now }] := by
  have hvpnil : ∀ (hh : hasHistory d = true),
      validPrices (chosenHistory d) = [] →
        reconcileSummary d =
          ⟨d.price_min, d.price_max, d.price_min_date, d.price_max_date⟩ := by
    intro hh hvp
    rw [reconcileSummary, if_pos (by simp [hh]), calc_price_history, hvp]
    simp [minByPrice, maxByPrice, Option.orElse]
  refine ⟨?_, ?_, ?_, ?_, ?_⟩
  · intro hh
    rw [reconcileSummary, if_neg (by simp [hh])]
  · intro hvp
    cases hh : hasHistory d
    · rw [reconcileSummary, if_neg (by simp [hh])]
    · exact hvpnil hh hvp
  · intro mn hmn
    have hvpne : validPrices (chosenHistory d) ≠ [] := by
      intro hnil
      rw [hnil] at hmn
      cases hmn
    have hchne : chosenHistory d ≠ [] := by
      intro hnil
      rw [validPrices, hnil] at hvpne
      exact hvpne rfl
    have hh : hasHistory d = true := by
      cases hh2 : hasHistory d
      · exact absurd ((chosenHistory_eq_nil_iff d).mpr hh2) hchne
      · rfl
    obtain ⟨hmem, hall⟩ := minByPrice_spec _ _ hmn
    obtain ⟨mx, hmx⟩ : ∃ mx, maxByPrice (validPrices (chosenHistory d)) = some mx := by
      cases hvp : validPrices (chosenHistory d) with
      | nil => exact absurd hvp hvpne
      | cons y ys => exact ⟨_, by rw [maxByPrice]⟩
    refine ⟨?_, hmem, hall, ?_⟩
    · rw [reconcileSummary, if_pos (by simp [hh]), calc_price_history, hmn, hmx]
      simp
    · rw [reconcileSummary, if_pos (by simp [hh]), calc_price_history, hmn, hmx]
      by_cases hd : mn.2 = ""
      · simp [hd]
      · simp [hd]
  · intro mx hmx
    have hvpne : validPrices (chosenHistory d) ≠ [] := by
      intro hnil
      rw [hnil] at hmx
      cases hmx
    have hchne : chosenHistory d ≠ [] := by
      intro hnil
      rw [validPrices, hnil] at hvpne
      exact hvpne rfl
    have hh : hasHistory d = true := by
      cases hh2 : hasHistory d
      · exact absurd ((chosenHistory_eq_nil_iff d).mpr hh2) hchne
      · rfl
    obtain ⟨hmem, hall⟩ := maxByPrice_spec _ _ hmx
    obtain ⟨mn, hmn⟩ : ∃ mn, minByPrice (validPrices (chosenHistory d)) = some mn := by
      cases hvp : validPrices (chosenHistory d) with
      | nil => exact absurd hvp hvpne
      | cons y ys => exact ⟨_, by rw [minByPrice]⟩
    refine ⟨?_, hmem, hall, ?_⟩
    · rw [reconcileSummary, if_pos (by simp [hh]), calc_price_history, hmn, hmx]
      simp
    · rw [reconcileSummary, if_pos (by simp [hh]), calc_price_history, hmn, hmx]
      by_cases hd : mx.2 = ""
      · simp [hd]
      · simp [hd]
  · rw [save_apify_data, ha]
    simp [hne]

/-- Payload matching the design document example: a raw series with prices
249.99, 179.99, 139.99 and provider summaries of a different magnitude. -/
def c4w : ApifyPayload :=
  { asin := some "B07", price_min := some 1, price_max := some 1000000,
    price_new_history :=
      [{ price := some 249.99, date := "2022-12-26" },
       { price := some 179.99, date := "2023-01-14" },
       { price := some 139.99, date := "2023-08-07" }] }

/-- Witness for C4 amended: the stored extremes are recomputed from the
series (139.99 and 249.99), overriding the supplied summaries 1 and
1000000. -/
theorem save_apify_reconciliation_spec_witness :
    (reconcileSummary c4w).price_min = some 139.99 ∧
    (reconcileSummary c4w).price_max = some 249.99 ∧
    (reconcileSummary c4w).price_min_date = some "2023-08-07" := by
  have hv : validPrices (chosenHistory c4w) =
      [(249.99, "2022-12-26"), (179.99, "2023-01-14"), (139.99, "2023-08-07")] := by
    norm_num +decide [validPrices, chosenHistory, c4w, List.filterMap_cons]
  have hmn : minByPrice (validPrices (chosenHistory c4w)) = some (139.99, "2023-08-07") := by
    rw [hv]
    norm_num [minByPrice]
  have hmx : maxByPrice (validPrices (chosenHistory c4w)) = some (249.99, "2022-12-26") := by
    rw [hv]
    norm_num [maxByPrice]
  have h := save_apify_reconciliation_spec c4w 0 [] "B07" rfl (by decide)
  refine ⟨(h.2.2.1 _ hmn).1, (h.2.2.2.1 _ hmx).1, ?_⟩
  rw [(h.2.2.1 _ hmn).2.2.2]
  decide

/-! ## C8: stale entries and the cache read paths -/

/-- Entry captured at time 0, stale for a 20-day window already at time
1728001. -/
def c8stale : CacheEntry := { asin := "B1", created_at := 0 }

/-- C8 counterexample: the single-identifier get has no freshness condition,
so it returns an entry whose age exceeds the window (here by one second),
while the claim says a stale entry is never returned by any cache read
including the single-identifier get. -/
theorem get_cached_data_returns_stale_entry :
    get_cached_data "B1" [c8stale] = some c8stale ∧
    (1728001 : ℤ) - c8stale.created_at > 20 * 86400 ∧
    is_cached "B1" 20 1728001 [c8stale] = false := by
  refine ⟨by decide, by decide, by decide⟩

theorem parse_price_history_not_from_cache (raw : ApifyPayload) (r : PriceHistoryOut)
    (h : parse_price_history raw = some r) : r.from_cache = false := by
  rw [parse_price_history] at h
  split at h
  · cases h
  · split at h
    · cases h
    · split at h
      · simp only [Option.some.injEq] at h
        rw [← h]
      · simp only [Option.some.injEq] at h
        rw [← h]

theorem mem_unique_asin {cache : List CacheEntry}
    (huniq : cache.Pairwise (fun x y => x.asin ≠ y.asin))
    {e c : CacheEntry} (he : e ∈ cache) (hc : c ∈ cache) (hea : e.asin = c.asin) :
    e = c := by
  induction cache with
  | nil => cases he
  | cons x xs ih =>
    obtain ⟨hx, hxs⟩ := List.pairwise_cons.mp huniq
    rcases List.mem_cons.mp he with rfl | he2
    · rcases List.mem_cons.mp hc with rfl | hc2
      · rfl
      · exact absurd hea (hx c hc2)
    · rcases List.mem_cons.mp hc with rfl | hc2
      · exact absurd hea.symm (hx e he2)
      · exact ih hxs he2 hc2

/-- C8 amended: the freshness window is enforced by the guarded read paths,
not by the raw single get: get_price_history consults is_cached before
reading, so a result marked from_cache always comes from an entry captured
within the window; the batch get returns only entries within the window; and
a stale entry is retained until clean_expired_cache, which deletes exactly
the entries older than the cutoff. The raw get_cached_data itself returns
the row regardless of age. -/
theorem cache_guarded_reads_fresh_spec (a : String) (cache : List CacheEntry)
    (now cache_days : ℤ) (api : Option ApifyPayload)
    (huniq : cache.Pairwise (fun x y => x.asin ≠ y.asin)) :
    (∀ r, (get_price_history a cache now cache_days api).2 = some r →
      r.from_cache = true →
        ∃ e, e ∈ cache ∧ e.asin = a ∧ now - e.created_at ≤ cache_days * 86400 ∧
          r = format_cached_data e) ∧
    (∀ e, e ∈ get_cached_data_batch [a] cache_days now cache →
      now - e.created_at ≤ cache_days * 86400) ∧
    (∀ e, e ∈ (clean_expired_cache cache_days now cache).1 ↔
      e ∈ cache ∧ ¬ e.created_at < now - cache_days * 86400) := by
  refine ⟨?_, ?_, ?_⟩
  · intro r hr hrc
    rw [get_price_history.eq_def] at hr
    split at hr
    case isTrue hic =>
      obtain ⟨e, he, hea, hef⟩ := (is_cached_iff a cache_days now cache).mp hic
      split at hr
      case h_1 c hgc =>
        simp only [Option.some.injEq] at hr
        have hcmem : c ∈ cache := List.mem_of_find?_eq_some hgc
        have hca : c.asin = a := by
          have := List.find?_some hgc
          simpa using this
        have hec : e = c := mem_unique_asin huniq he hcmem (hea.trans hca.symm)
        exact ⟨c, hcmem, hca, hec ▸ hef, hr.symm⟩
      case h_2 hgc =>
        split at hr
        · exact Option.noConfusion hr
        · exact absurd hrc (by simp [parse_price_history_not_from_cache _ _ hr])
    case isFalse hic =>
      split at hr
      · exact Option.noConfusion hr
      · exact absurd hrc (by simp [parse_price_history_not_from_cache _ _ hr])
  · intro e he
    simp only [get_cached_data_batch, List.mem_filter, Bool.and_eq_true, isFreshAt,
      decide_eq_true_eq] at he
    omega
  · intro e
    simp [clean_expired_cache, List.mem_filter]

/-- Fresh entry for the C8 witness. -/
def c8fresh : CacheEntry := { asin := "a", created_at := 900 }

/-- Witness for C8 amended: at time 1000 with a 20-day window, the fetcher
returns the cached row for the fresh entry and that entry satisfies the
window. -/
theorem cache_guarded_reads_fresh_spec_witness :
    ∃ e, e ∈ [c8fresh] ∧ e.asin = "a" ∧ (1000 : ℤ) - e.created_at ≤ 20 * 86400 ∧
      format_cached_data c8fresh = format_cached_data e := by
  exact (cache_guarded_reads_fresh_spec "a" [c8fresh] 1000 20 none (by simp)).1
    (format_cached_data c8fresh) (by decide) rfl

/-! ## C1: the category-majority filter -/

theorem mem_firstOccsAux (l : List String) : ∀ (seen : List String) (c : String),
    c ∈ firstOccsAux seen l ↔ c ∈ l ∧ c ∉ seen := by
  induction l with
  | nil => simp [firstOccsAux]
  | cons x xs ih =>
    intro seen c
    rw [firstOccsAux]
    by_cases hx : x ∈ seen
    · rw [if_pos hx, ih]
      constructor
      · rintro ⟨h1, h2⟩
        exact ⟨List.mem_cons_of_mem x h1, h2⟩
      · rintro ⟨h1, h2⟩
        rcases List.mem_cons.mp h1 with rfl | h3
        · exact absurd hx h2
        · exact ⟨h3, h2⟩
    · rw [if_neg hx]
      constructor
      · intro h
        rcases List.mem_cons.mp h with rfl | h2
        · exact ⟨List.mem_cons_self _ _, hx⟩
        · obtain ⟨h3, h4⟩ := (ih (x :: seen) c).mp h2
          exact ⟨List.mem_cons_of_mem x h3, fun hc => h4 (List.mem_cons_of_mem x hc)⟩
      · rintro ⟨h1, h2⟩
        rcases eq_or_ne c x with rfl | hne
        · exact List.mem_cons_self _ _
        · rcases List.mem_cons.mp h1 with rfl | h3
          · exact absurd rfl hne
          · refine List.mem_cons_of_mem x ((ih (x :: seen) c).mpr ⟨h3, ?_⟩)
            intro hc
            rcases List.mem_cons.mp hc with h | h
            · exact hne h
            · exact h2 h

theorem mem_firstOccs (l : List String) (c : String) : c ∈ firstOccs l ↔ c ∈ l := by
  rw [firstOccs, mem_firstOccsAux]
  simp

theorem foldl_argmax_spec (l : List (String × ℕ)) (init : String × ℕ) :
    (List.foldl (fun best q => if best.2 < q.2 then q else best) init l = init ∨
      List.foldl (fun best q => if best.2 < q.2 then q else best) init l ∈ l) ∧
    init.2 ≤ (List.foldl (fun best q => if best.2 < q.2 then q else best) init l).2 ∧
    ∀ q ∈ l, q.2 ≤ (List.foldl (fun best q => if best.2 < q.2 then q else best) init l).2 := by
  induction l generalizing init with
  | nil => simp
  | cons x xs ih =>
    simp only [List.foldl_cons]
    obtain ⟨hmem, hle, hall⟩ := ih (if init.2 < x.2 then x else init)
    have hnx : init.2 ≤ (if init.2 < x.2 then x else init).2 ∧
        x.2 ≤ (if init.2 < x.2 then x else init).2 := by
      by_cases h : init.2 < x.2
      · simp only [if_pos h]
        exact ⟨le_of_lt h, le_refl _⟩
      · simp only [if_neg h]
        exact ⟨le_refl _, le_of_not_lt h⟩
    refine ⟨?_, le_trans hnx.1 hle, ?_⟩
    · rcases hmem with h | h
      · rw [h]
        by_cases hx : init.2 < x.2
        · exact Or.inr (by simp [hx])
        · exact Or.inl (by simp [hx])
      · exact Or.inr (List.mem_cons_of_mem x h)
    · intro q hq
      rcases List.mem_cons.mp hq with rfl | hq2
      · exact le_trans hnx.2 hle
      · exact hall q hq2

theorem pickTop_spec (l : List (String × ℕ)) (p : String × ℕ)
    (h : pickTop l = some p) : p ∈ l ∧ ∀ q ∈ l, q.2 ≤ p.2 := by
  cases l with
  | nil => cases h
  | cons x xs =>
    rw [pickTop] at h
    obtain ⟨hmem, hle, hall⟩ := foldl_argmax_spec xs x
    have hp := Option.some_injective _ h
    constructor
    · rcases hmem with h2 | h2
      · rw [← hp, h2]
        exact List.mem_cons_self x xs
      · rw [← hp]
        exact List.mem_cons_of_mem x h2
    · intro q hq
      rcases List.mem_cons.mp hq with rfl | hq2
      · rw [← hp]
        exact hle
      · rw [← hp]
        exact hall q hq2

theorem topCategory_spec (kw : String) (store : List AsinRecord) (t : String) (n : ℕ)
    (h : topCategory kw store = some (t, n)) :
    t ∈ catCandidates kw store ∧ n = (catCandidates kw store).count t ∧
    ∀ c, (catCandidates kw store).count c ≤ n := by
  rw [topCategory] at h
  obtain ⟨hmem, hall⟩ := pickTop_spec _ _ h
  rw [List.mem_map] at hmem
  obtain ⟨c, hc, hcn⟩ := hmem
  obtain ⟨rfl, rfl⟩ := Prod.mk.injEq .. |>.mp hcn
  refine ⟨(mem_firstOccs _ _).mp hc, rfl, ?_⟩
  intro c2
  by_cases hc2 : c2 ∈ catCandidates kw store
  · exact hall (c2, (catCandidates kw store).count c2)
      (List.mem_map.mpr ⟨c2, (mem_firstOccs _ _).mpr hc2, rfl⟩)
  · rw [List.count_eq_zero.mpr hc2]
    exact Nat.zero_le _

theorem topCategory_none (kw : String) (store : List AsinRecord)
    (h : catCandidates kw store = []) : topCategory kw store = none := by
  rw [topCategory, h]
  rfl

theorem catCandidates_ne_empty_string (kw : String) (store : List AsinRecord)
    (c : String) (hc : c ∈ catCandidates kw store) : ¬ c = "" := by
  rw [catCandidates, List.mem_filterMap] at hc
  obtain ⟨r, hr, hf⟩ := hc
  split at hf
  · split at hf
    · split at hf
      · cases hf
      · next hne =>
        simp only [Option.some.injEq] at hf
        rw [← hf]
        simpa using hne
    · cases hf
  · cases hf

theorem length_filter_le_of_imp {p q : AsinRecord → Bool}
    (h : ∀ a, p a = true → q a = true) (l : List AsinRecord) :
    (l.filter p).length ≤ (l.filter q).length := by
  induction l with
  | nil => simp
  | cons x xs ih =>
    by_cases hp : p x = true
    · rw [List.filter_cons_of_pos hp, List.filter_cons_of_pos (h x hp)]
      simpa using ih
    · rw [List.filter_cons_of_neg (by simpa using hp)]
      by_cases hq : q x = true
      · rw [List.filter_cons_of_pos hq]
        exact le_trans ih (Nat.le_succ _)
      · rw [List.filter_cons_of_neg (by simpa using hq)]
        exact ih

theorem catHit_imp_isUnfiltered (kw t : String) (r : AsinRecord)
    (h : catHit kw t r = true) : isUnfiltered kw r = true := by
  simp only [catHit, Bool.and_eq_true] at h
  simp only [isUnfiltered, Bool.and_eq_true]
  exact ⟨h.1.1, h.2⟩

theorem catHit_iff (kw t : String) (r : AsinRecord) :
    catHit kw t r = true ↔
      r.filter_status = none ∧ r.keyword = kw ∧ ¬ r.category_sub = some t := by
  simp only [catHit, Bool.and_eq_true, beq_iff_eq, Option.isNone_iff_eq_none]
  cases hsub : r.category_sub with
  | none => simp; tauto
  | some c => simp; tauto

/-- C1: the category-majority filter selects a sub-category of maximal count
among the currently unfiltered records of the keyword, tags exactly the
unfiltered records whose sub-category is null or differs from the selected
one (an empty sub-category differs, since the selected one is never empty),
reports kept + removed = total, and changes nothing when no unfiltered
record carries a non-empty sub-category. -/
theorem filter_by_top_category_majority_spec (kw : String) (store : List AsinRecord) :
    (filter_by_top_category kw store).2.kept + (filter_by_top_category kw store).2.removed =
      (filter_by_top_category kw store).2.total ∧
    (catCandidates kw store = [] →
      (filter_by_top_category kw store).1 = store ∧
      (filter_by_top_category kw store).2.removed = 0) ∧
    (∀ t, (filter_by_top_category kw store).2.top_category = some t →
      t ∈ catCandidates kw store ∧
      ¬ t = "" ∧
      (∀ c, (catCandidates kw store).count c ≤ (catCandidates kw store).count t) ∧
      (filter_by_top_category kw store).2.top_category_count =
        (catCandidates kw store).count t ∧
      (filter_by_top_category kw store).2.removed = (store.filter (catHit kw t)).length ∧
      ∀ (i : ℕ) (r : AsinRecord), store[i]? = some r →
        (filter_by_top_category kw store).1[i]? =
          some (if r.filter_status = none ∧ r.keyword = kw ∧ ¬ r.category_sub = some t
                then { r with filter_status := some FilterTag.categoryFiltered }
                else r)) := by
  by_cases h0 : (store.filter (isUnfiltered kw)).length = 0
  · have hmain : filter_by_top_category kw store =
        (store, { total := 0, top_category := none, top_category_count := 0,
                  removed := 0, kept := 0, avg_price := none, median_price := none }) := by
      rw [filter_by_top_category, if_pos h0]
    refine ⟨?_, ?_, ?_⟩
    · rw [hmain]
      rfl
    · intro hc
      rw [hmain]
      exact ⟨rfl, rfl⟩
    · intro t ht
      rw [hmain] at ht
      cases ht
  · rcases htc : topCategory kw store with _ | ⟨t0, n0⟩
    · have hmain : filter_by_top_category kw store =
          (store, { total := (store.filter (isUnfiltered kw)).length, top_category := none,
                    top_category_count := 0, removed := 0,
                    kept := (store.filter (isUnfiltered kw)).length,
                    avg_price := none, median_price := none }) := by
        rw [filter_by_top_category, if_neg h0]
        simp only [htc]
      refine ⟨?_, ?_, ?_⟩
      · rw [hmain]
        rfl
      · intro hc
        rw [hmain]
        exact ⟨rfl, rfl⟩
      · intro t ht
        rw [hmain] at ht
        cases ht
    · obtain ⟨hmem, hn, hmax⟩ := topCategory_spec kw store t0 n0 htc
      have hrem : (store.filter (catHit kw t0)).length ≤
          (store.filter (isUnfiltered kw)).length :=
        length_filter_le_of_imp (catHit_imp_isUnfiltered kw t0) store
      have hmain : filter_by_top_category kw store =
          (markIf (catHit kw t0) FilterTag.categoryFiltered store,
           { total := (store.filter (isUnfiltered kw)).length,
             top_category := some t0, top_category_count := n0,
             removed := (store.filter (catHit kw t0)).length,
             kept := (store.filter (isUnfiltered kw)).length -
               (store.filter (catHit kw t0)).length,
             avg_price := avgOf (topPrices kw t0 store),
             median_price :=
               medianOfSorted ((topPrices kw t0 store).insertionSort (· ≤ ·)) }) := by
        rw [filter_by_top_category, if_neg h0]
        simp only [htc]
      refine ⟨?_, ?_, ?_⟩
      · rw [hmain]
        exact Nat.sub_add_cancel hrem
      · intro hc
        rw [topCategory_none kw store hc] at htc
        cases htc
      · intro t ht
        rw [hmain] at ht
        simp only [Option.some.injEq] at ht
        subst ht
        refine ⟨hmem, catCandidates_ne_empty_string kw store t0 hmem, ?_, ?_, ?_, ?_⟩
        · intro c
          rw [← hn]
          exact hmax c
        · rw [hmain]
          exact hn
        · rw [hmain]
        · intro i r hi
          rw [hmain]
          show (markIf (catHit kw t0) FilterTag.categoryFiltered store)[i]? = _
          rw [markIf_getElem, hi]
          by_cases hc : r.filter_status = none ∧ r.keyword = kw ∧ ¬ r.category_sub = some t0
          · simp only [Option.map_some']
            rw [if_pos ((catHit_iff kw t0 r).mpr hc), if_pos hc]
          · simp only [Option.map_some']
            rw [if_neg (fun h => hc ((catHit_iff kw t0 r).mp h)), if_neg hc]

/-- Store with no sub-categories under the keyword. -/
def c1NoCat : List AsinRecord := [{ asin := "n1", keyword := "k" }]

/-- Store with sub-category groups of sizes 2 (T) and 1 (S). -/
def c1store : List AsinRecord :=
  [{ asin := "a1", keyword := "k", category_sub := some "T" },
   { asin := "a2", keyword := "k", category_sub := some "T" },
   { asin := "a3", keyword := "k", category_sub := some "S" }]

/-- Witness for C1 at concrete stores: no sub-categories means no change; with
groups T (2 records) and S (1 record) the S record is tagged and a T record
is kept. -/
theorem filter_by_top_category_majority_spec_witness :
    (filter_by_top_category "k" c1NoCat).1 = c1NoCat ∧
    (filter_by_top_category "k" c1store).1[2]? =
      some { asin := "a3", keyword := "k", category_sub := some "S",
             filter_status := some FilterTag.categoryFiltered } ∧
    (filter_by_top_category "k" c1store).1[0]? =
      some { asin := "a1", keyword := "k", category_sub := some "T" } := by
  refine ⟨?_, ?_, ?_⟩
  · exact ((filter_by_top_category_majority_spec "k" c1NoCat).2.1 (by decide)).1
  · have h := ((filter_by_top_category_majority_spec "k" c1store).2.2 "T"
      (by decide)).2.2.2.2.2 2
      { asin := "a3", keyword := "k", category_sub := some "S" } rfl
    rw [if_pos (by decide)] at h
    exact h
  · have h := ((filter_by_top_category_majority_spec "k" c1store).2.2 "T"
      (by decide)).2.2.2.2.2 0
      { asin := "a1", keyword := "k", category_sub := some "T" } rfl
    rw [if_neg (by decide)] at h
    exact h

/-! ## C9: the median of the category filter -/

/-- Prices of the selected group's own members — the unfiltered records of
the keyword in the selected sub-category — following the claim's words "the
group's prices". Declared from the claim for comparison with the
implementation, which queries all records of the keyword in that
sub-category regardless of filter_status. -/
def groupMemberPrices (kw t : String) (store : List AsinRecord) : List ℚ :=
  store.filterMap (fun r =>
    if isUnfiltered kw r && r.category_sub == some t then r.price else none)

/-- Median exactly as the claim words it: full sort, middle element for an
odd count, average of the two middle elements for an even count, no
rounding. Declared from the claim's wording. -/
def specMedian (l : List ℚ) : Option ℚ :=
  if (l.insertionSort (· ≤ ·)).length = 0 then none
  else if (l.insertionSort (· ≤ ·)).length % 2 = 1 then
    (l.insertionSort (· ≤ ·))[(l.insertionSort (· ≤ ·)).length / 2]?
  else
    match (l.insertionSort (· ≤ ·))[(l.insertionSort (· ≤ ·)).length / 2 - 1]?,
        (l.insertionSort (· ≤ ·))[(l.insertionSort (· ≤ ·)).length / 2]? with
    | some a, some b => some ((a + b) / 2)
    | _, _ => none

/-- Store for the C9 counterexample: two unfiltered records in sub-category A
with prices 10 and 20, and one record already tagged sponsored in the same
sub-category with price 1000. -/
def c9store : List AsinRecord :=
  [{ asin := "X1", keyword := "k", category_sub := some "A", price := some 10 },
   { asin := "X2", keyword := "k", category_sub := some "A", price := some 20 },
   { asin := "X3", keyword := "k", category_sub := some "A", price := some 1000,
     filter_status := some FilterTag.sponsored }]

/-- C9 counterexample: the selected group's members have prices [10, 20],
whose claimed median is 15, but the code reports median 20 because its
median query also includes the already-tagged record with price 1000. -/
theorem category_median_includes_tagged_rows :
    (filter_by_top_category "k" c9store).2.top_category = some "A" ∧
    (filter_by_top_category "k" c9store).2.median_price = some 20 ∧
    groupMemberPrices "k" "A" c9store = [10, 20] ∧
    specMedian (groupMemberPrices "k" "A" c9store) = some 15 ∧
    ¬ (some (20 : ℚ) = some (15 : ℚ)) := by
  have hgmp : groupMemberPrices "k" "A" c9store = [10, 20] := by decide
  have hp : topPrices "k" "A" c9store = [10, 20, 1000] := by decide
  have hs : (topPrices "k" "A" c9store).insertionSort (· ≤ ·) = [10, 20, 1000] := by
    rw [hp]
    decide
  have hmed : (filter_by_top_category "k" c9store).2.median_price =
      medianOfSorted ((topPrices "k" "A" c9store).insertionSort (· ≤ ·)) := by
    rw [filter_by_top_category, if_neg (by decide)]
    simp only [show topCategory "k" c9store = some ("A", 2) from by decide]
  refine ⟨by decide, ?_, hgmp, ?_, by norm_num⟩
  · rw [hmed, hs]
    norm_num [medianOfSorted, round2]
  · rw [hgmp]
    have : ([10, 20] : List ℚ).insertionSort (· ≤ ·) = [10, 20] := by decide
    norm_num [specMedian, this]

/-- C9 amended: the reported median is computed by fully sorting the prices
of all records of the keyword in the selected sub-category that have a
non-null positive price — including records already tagged by earlier
stages — and taking the middle element for an odd count or the average of
the two middle elements for an even count, rounded to two decimals:
equivalently, it equals medianOfSorted of any ascending arrangement of that
price list. -/
theorem category_median_full_sort_spec (kw : String) (store : List AsinRecord)
    (t : String) (l : List ℚ)
    (htop : (filter_by_top_category kw store).2.top_category = some t)
    (hperm : l.Perm (topPrices kw t store))
    (hsort : l.Sorted (· ≤ ·)) :
    (filter_by_top_category kw store).2.median_price = medianOfSorted l := by
  by_cases h0 : (store.filter (isUnfiltered kw)).length = 0
  · rw [filter_by_top_category, if_pos h0] at htop
    cases htop
  · rcases htc : topCategory kw store with _ | ⟨t0, n0⟩
    · rw [filter_by_top_category, if_neg h0] at htop
      simp only [htc] at htop
      cases htop
    · have hts : t = t0 := by
        rw [filter_by_top_category, if_neg h0] at htop
        simp only [htc, Option.some.injEq] at htop
        exact htop.symm
      subst hts
      have hleq : l = (topPrices kw t store).insertionSort (· ≤ ·) :=
        List.eq_of_perm_of_sorted
          (hperm.trans (List.perm_insertionSort (· ≤ ·) (topPrices kw t store)).symm)
          hsort (List.sorted_insertionSort (· ≤ ·) (topPrices kw t store))
      rw [filter_by_top_category, if_neg h0]
      simp only [htc]
      rw [hleq]

/-- Store for the C9 witness: an even-count group with prices 10 and 20. -/
def c9wstore : List AsinRecord :=
  [{ asin := "Y1", keyword := "k", category_sub := some "A", price := some 10 },
   { asin := "Y2", keyword := "k", category_sub := some "A", price := some 20 }]

/-- Witness for C9 amended: the reported median over prices [10, 20] is the
average of the two middle elements, 15. -/
theorem category_median_full_sort_spec_witness :
    (filter_by_top_category "k" c9wstore).2.median_price = medianOfSorted [10, 20] ∧
    medianOfSorted [10, 20] = some 15 := by
  constructor
  · exact category_median_full_sort_spec "k" c9wstore "A" [10, 20] (by decide) (by decide)
      (by decide)
  · norm_num [medianOfSorted, round2]

/-! ## C10: the sales-text regex -/

/-- Characters of the list all satisfy isDigit. -/
def IsDigitRun (l : List Char) : Prop := ∀ c ∈ l, c.isDigit = true

/-- Characters of the list all satisfy isWhitespace. -/
def IsWsRun (l : List Char) : Prop := ∀ c ∈ l, c.isWhitespace = true

theorem ws_not_digit (c : Char) (h : c.isWhitespace = true) : c.isDigit = false := by
  simp only [Char.isWhitespace, Bool.or_eq_true, beq_iff_eq, decide_eq_true_eq] at h
  rcases h with ((rfl | rfl) | rfl) | rfl <;> decide

theorem unit_not_digit (c : Char) (h : isUnitChar c = true) : c.isDigit = false := by
  simp only [isUnitChar, Bool.or_eq_true, beq_iff_eq, decide_eq_true_eq] at h
  rcases h with ((rfl | rfl) | rfl) | rfl <;> decide

theorem unit_not_ws (c : Char) (h : isUnitChar c = true) : c.isWhitespace = false := by
  simp only [isUnitChar, Bool.or_eq_true, beq_iff_eq, decide_eq_true_eq] at h
  rcases h with ((rfl | rfl) | rfl) | rfl <;> decide

theorem unit_not_dot (c : Char) (h : isUnitChar c = true) : ¬ c = '.' := by
  simp only [isUnitChar, Bool.or_eq_true, beq_iff_eq, decide_eq_true_eq] at h
  rcases h with ((rfl | rfl) | rfl) | rfl <;> decide

theorem ws_not_dot (c : Char) (h : c.isWhitespace = true) : ¬ c = '.' := by
  intro hc
  subst hc
  exact absurd h (by decide)

theorem mem_takeWhile_true {p : Char → Bool} (l : List Char) :
    ∀ c ∈ l.takeWhile p, p c = true := by
  induction l with
  | nil => simp
  | cons a t ih =>
    intro c hc
    rw [List.takeWhile_cons] at hc
    by_cases ha : p a = true
    · rw [if_pos ha] at hc
      rcases List.mem_cons.mp hc with rfl | h2
      · exact ha
      · exact ih c h2
    · rw [if_neg ha] at hc
      cases hc

/-- Maximal-run decomposition: takeWhile and dropWhile of a list whose prefix
satisfies p throughout and whose remainder starts with a character failing p
(or is empty). -/
theorem takeWhile_run {p : Char → Bool} :
    ∀ (l1 l2 : List Char), (∀ c ∈ l1, p c = true) →
      (∀ c, l2.head? = some c → p c = false) →
      (l1 ++ l2).takeWhile p = l1 ∧ (l1 ++ l2).dropWhile p = l2 := by
  intro l1
  induction l1 with
  | nil =>
    intro l2 h1 h2
    simp only [List.nil_append]
    cases l2 with
    | nil => simp
    | cons x xs =>
      have hx := h2 x rfl
      rw [List.takeWhile_cons, List.dropWhile_cons]
      simp [hx]
  | cons a t ih =>
    intro l2 h1 h2
    have ha : p a = true := h1 a (List.mem_cons_self a t)
    obtain ⟨ht, hd⟩ := ih l2 (fun c hc => h1 c (List.mem_cons_of_mem a hc)) h2
    constructor
    · rw [List.cons_append, List.takeWhile_cons, if_pos ha, ht]
    · rw [List.cons_append, List.dropWhile_cons, if_pos ha, hd]

theorem head_append_cases {l1 l2 : List Char} (c : Char)
    (h : (l1 ++ l2).head? = some c) :
    l1.head? = some c ∨ (l1 = [] ∧ l2.head? = some c) := by
  cases l1 with
  | nil => exact Or.inr ⟨rfl, by simpa using h⟩
  | cons x xs => exact Or.inl (by simpa using h)

/-- Head of the regex tail (whitespace, optional unit, whitespace, plus) is a
whitespace character, a unit letter, or the plus sign. -/
theorem tail_head_cases {ws1 us ws2 rest : List Char}
    (hw1 : IsWsRun ws1) (hw2 : IsWsRun ws2)
    (hus : us = [] ∨ ∃ u, isUnitChar u = true ∧ us = [u]) :
    ∀ c, ((ws1 ++ (us ++ (ws2 ++ '+' :: rest))).head? = some c) →
      c.isWhitespace = true ∨ isUnitChar c = true ∨ c = '+' := by
  intro c hc
  rcases head_append_cases c hc with h | ⟨h1, hc2⟩
  · cases ws1 with
    | nil => cases h
    | cons w t =>
      simp only [List.head?_cons, Option.some.injEq] at h
      exact Or.inl (h ▸ hw1 w (List.mem_cons_self w t))
  · rcases head_append_cases c hc2 with h | ⟨h1b, hc3⟩
    · rcases hus with rfl | ⟨u, hu, rfl⟩
      · cases h
      · simp only [List.head?_cons, Option.some.injEq] at h
        exact Or.inr (Or.inl (h ▸ hu))
    · rcases head_append_cases c hc3 with h | ⟨h1c, hc4⟩
      · cases ws2 with
        | nil => cases h
        | cons w t =>
          simp only [List.head?_cons, Option.some.injEq] at h
          exact Or.inl (h ▸ hw2 w (List.mem_cons_self w t))
      · simp only [List.head?_cons, Option.some.injEq] at hc4
        exact Or.inr (Or.inr hc4.symm)

theorem tail_head_not_digit {ws1 us ws2 rest : List Char}
    (hw1 : IsWsRun ws1) (hw2 : IsWsRun ws2)
    (hus : us = [] ∨ ∃ u, isUnitChar u = true ∧ us = [u]) :
    ∀ c, ((ws1 ++ (us ++ (ws2 ++ '+' :: rest))).head? = some c) → c.isDigit = false := by
  intro c hc
  rcases tail_head_cases hw1 hw2 hus c hc with h | h | rfl
  · exact ws_not_digit c h
  · exact unit_not_digit c h
  · decide

theorem tail_head_not_dot {ws1 us ws2 rest : List Char}
    (hw1 : IsWsRun ws1) (hw2 : IsWsRun ws2)
    (hus : us = [] ∨ ∃ u, isUnitChar u = true ∧ us = [u]) :
    ∀ c, ((ws1 ++ (us ++ (ws2 ++ '+' :: rest))).head? = some c) → ¬ c = '.' := by
  intro c hc
  rcases tail_head_cases hw1 hw2 hus c hc with h | h | rfl
  · exact ws_not_dot c h
  · exact unit_not_dot c h
  · decide

/-- Characterization of the regex tail matcher: it succeeds exactly on
whitespace, an optional unit letter, whitespace, and a plus sign, and the
groups it returns carry the number groups plus the unit it consumed. -/
theorem afterNum_eq_some_iff (ds fds : List Char) (g : SalesGroups) (rest : List Char) :
    afterNum ds fds rest = some g ↔
      ∃ ws1 us ws2 tail, IsWsRun ws1 ∧ IsWsRun ws2 ∧
        (us = [] ∨ ∃ u, isUnitChar u = true ∧ us = [u]) ∧
        rest = ws1 ++ (us ++ (ws2 ++ '+' :: tail)) ∧
        g = ⟨ds, fds, us⟩ := by
  constructor
  · intro h
    rw [afterNum] at h
    split at h
    · cases h
    · next c r heq =>
      have hrest : rest = rest.takeWhile Char.isWhitespace ++ c :: r := by
        conv_lhs => rw [← List.takeWhile_append_dropWhile (p := Char.isWhitespace) (l := rest)]
        rw [heq]
      have hws1 : IsWsRun (rest.takeWhile Char.isWhitespace) :=
        mem_takeWhile_true rest
      split at h
      · next hu =>
        split at h
        · next tail heq2 =>
          simp only [Option.some.injEq] at h
          have hr : r = r.takeWhile Char.isWhitespace ++ '+' :: tail := by
            conv_lhs => rw [← List.takeWhile_append_dropWhile (p := Char.isWhitespace) (l := r)]
            rw [heq2]
          refine ⟨rest.takeWhile Char.isWhitespace, [c], r.takeWhile Char.isWhitespace,
            tail, hws1, mem_takeWhile_true r, Or.inr ⟨c, hu, rfl⟩, ?_, h.symm⟩
          conv_lhs => rw [hrest, hr]
          simp
        · cases h
      · next hu =>
        split at h
        · next hplus =>
          simp only [Option.some.injEq] at h
          have hc : c = '+' := by simpa using hplus
          subst hc
          refine ⟨rest.takeWhile Char.isWhitespace, [], [], r, hws1, by simp [IsWsRun],
            Or.inl rfl, ?_, h.symm⟩
          conv_lhs => rw [hrest]
          simp
        · cases h
  · rintro ⟨ws1, us, ws2, tail, hw1, hw2, hus, hrest, hw⟩
    rcases hus with rfl | ⟨u, hu, rfl⟩
    · have hws : IsWsRun (ws1 ++ ws2) := by
        intro c hc
        rcases List.mem_append.mp hc with h | h
        · exact hw1 c h
        · exact hw2 c h
      have hdec : ((ws1 ++ ws2) ++ '+' :: tail).dropWhile Char.isWhitespace = '+' :: tail :=
        (takeWhile_run (ws1 ++ ws2) ('+' :: tail) hws (fun c hc => by
          simp only [List.head?_cons, Option.some.injEq] at hc
          subst hc
          decide)).2
      rw [afterNum]
      have hshape : rest = (ws1 ++ ws2) ++ '+' :: tail := by
        rw [hrest]
        simp
      rw [hshape, hdec]
      simp only [show isUnitChar '+' = false from by decide, Bool.false_eq_true, if_false]
      rw [if_pos (by decide : ('+' == '+') = true)]
      rw [hw]
    · have hdec : (ws1 ++ u :: (ws2 ++ '+' :: tail)).dropWhile Char.isWhitespace =
          u :: (ws2 ++ '+' :: tail) :=
        (takeWhile_run ws1 (u :: (ws2 ++ '+' :: tail)) hw1 (fun c hc => by
          simp only [List.head?_cons, Option.some.injEq] at hc
          subst hc
          exact unit_not_ws u hu)).2
      have hdec2 : (ws2 ++ '+' :: tail).dropWhile Char.isWhitespace = '+' :: tail :=
        (takeWhile_run ws2 ('+' :: tail) hw2 (fun c hc => by
          simp only [List.head?_cons, Option.some.injEq] at hc
          subst hc
          decide)).2
      rw [afterNum]
      have hshape : rest = ws1 ++ u :: (ws2 ++ '+' :: tail) := by
        rw [hrest]
        simp
      rw [hshape, hdec]
      simp only [hu, if_true, hdec2]
      rw [hw]

/-- Declarative reading of one anchored match of the sales pattern: a
non-empty digit run, an optional fraction (a dot followed by a non-empty
digit run), optional whitespace, an optional unit letter, optional
whitespace, and the plus sign; the groups are the digit runs and the unit
consumed. -/
def AnchoredSales (cs : List Char) (g : SalesGroups) : Prop :=
  ∃ ds fds ws1 us ws2 rest,
    ¬ ds = [] ∧ IsDigitRun ds ∧ IsDigitRun fds ∧ IsWsRun ws1 ∧ IsWsRun ws2 ∧
    (us = [] ∨ ∃ u, isUnitChar u = true ∧ us = [u]) ∧
    cs = ds ++ ((if fds = [] then [] else '.' :: fds) ++
      (ws1 ++ (us ++ (ws2 ++ '+' :: rest)))) ∧
    g = ⟨ds, fds, us⟩

/-- The anchored matcher succeeds with groups g exactly when the
declarative anchored pattern holds with groups g. -/
theorem salesMatchAt_eq_some_iff (cs : List Char) (g : SalesGroups) :
    salesMatchAt cs = some g ↔ AnchoredSales cs g := by
  constructor
  · intro h
    rw [salesMatchAt] at h
    split at h
    · cases h
    · next hne =>
      have hds_ne : ¬ cs.takeWhile Char.isDigit = [] := by
        simpa [List.isEmpty_iff] using hne
      split at h
      · next r heq =>
        split at h
        · next hfse =>
          exfalso
          obtain ⟨ws1, us, ws2, tail, hw1, hw2, hus, hshape, hw⟩ :=
            (afterNum_eq_some_iff _ _ _ _).mp h
          have hdot : ('.' : Char).isWhitespace = true ∨ isUnitChar '.' = true ∨
              ('.' : Char) = '+' := by
            apply tail_head_cases hw1 hw2 hus
            rw [← hshape]
            rfl
          rcases hdot with h2 | h2 | h2 <;> exact absurd h2 (by decide)
        · next hfse =>
          obtain ⟨ws1, us, ws2, tail, hw1, hw2, hus, hshape, hw⟩ :=
            (afterNum_eq_some_iff _ _ _ _).mp h
          have hfds_ne : ¬ r.takeWhile Char.isDigit = [] := by
            simpa [List.isEmpty_iff] using hfse
          refine ⟨cs.takeWhile Char.isDigit, r.takeWhile Char.isDigit, ws1, us, ws2, tail,
            hds_ne, mem_takeWhile_true cs, mem_takeWhile_true r, hw1, hw2, hus, ?_, hw⟩
          rw [if_neg hfds_ne]
          conv_lhs =>
            rw [← List.takeWhile_append_dropWhile (p := Char.isDigit) (l := cs), heq,
              ← List.takeWhile_append_dropWhile (p := Char.isDigit) (l := r), hshape]
          simp
      · next hnodot =>
        obtain ⟨ws1, us, ws2, tail, hw1, hw2, hus, hshape, hw⟩ :=
          (afterNum_eq_some_iff _ _ _ _).mp h
        refine ⟨cs.takeWhile Char.isDigit, [], ws1, us, ws2, tail,
          hds_ne, mem_takeWhile_true cs, by simp [IsDigitRun], hw1, hw2, hus, ?_, ?_⟩
        · rw [if_pos rfl]
          conv_lhs =>
            rw [← List.takeWhile_append_dropWhile (p := Char.isDigit) (l := cs), hshape]
          simp
        · exact hw
  · rintro ⟨ds, fds, ws1, us, ws2, rest, hds_ne, hdsd, hfdsd, hw1, hw2, hus, hcs, hv⟩
    by_cases hf : fds = []
    · subst hf
      rw [if_pos rfl, List.nil_append] at hcs
      obtain ⟨htake, hdrop⟩ := takeWhile_run ds (ws1 ++ (us ++ (ws2 ++ '+' :: rest)))
        hdsd (tail_head_not_digit hw1 hw2 hus)
      rw [salesMatchAt, hcs, htake, hdrop]
      rw [if_neg (by simpa [List.isEmpty_iff] using hds_ne)]
      split
      · next r heq =>
        exfalso
        exact tail_head_not_dot hw1 hw2 hus '.' (by rw [heq]; rfl) rfl
      · exact (afterNum_eq_some_iff _ _ _ _).mpr ⟨ws1, us, ws2, rest, hw1, hw2, hus, rfl, hv⟩
    · have hT : cs = ds ++
          ('.' :: (fds ++ (ws1 ++ (us ++ (ws2 ++ '+' :: rest))))) := by
        rw [hcs, if_neg hf]
        simp
      obtain ⟨htake2, hdrop2⟩ := takeWhile_run fds (ws1 ++ (us ++ (ws2 ++ '+' :: rest)))
        hfdsd (tail_head_not_digit hw1 hw2 hus)
      obtain ⟨htake, hdrop⟩ := takeWhile_run ds
        ('.' :: (fds ++ (ws1 ++ (us ++ (ws2 ++ '+' :: rest))))) hdsd
        (fun c hc => by
          simp only [List.head?_cons, Option.some.injEq] at hc
          subst hc
          decide)
      rw [salesMatchAt, hT, htake, hdrop]
      rw [if_neg (by simpa [List.isEmpty_iff] using hds_ne)]
      split
      · next r heq =>
        have hr : fds ++ (ws1 ++ (us ++ (ws2 ++ '+' :: rest))) = r := by
          simpa using heq
        subst hr
        rw [htake2, hdrop2]
        rw [if_neg (by simpa [List.isEmpty_iff] using hf)]
        exact (afterNum_eq_some_iff _ _ _ _).mpr ⟨ws1, us, ws2, rest, hw1, hw2, hus, rfl, hv⟩
      · next hno =>
        exact absurd rfl (hno (fds ++ (ws1 ++ (us ++ (ws2 ++ '+' :: rest)))))

theorem salesMatchAt_nil : salesMatchAt [] = none := rfl

/-- The scan succeeds with groups g exactly when some start position
matches with g and every earlier position fails: re.search takes the
leftmost match. -/
theorem scanSales_some_iff (cs : List Char) (g : SalesGroups) :
    scanSales cs = some g ↔
      ∃ i, salesMatchAt (cs.drop i) = some g ∧
        ∀ j, j < i → salesMatchAt (cs.drop j) = none := by
  induction cs with
  | nil => simp [scanSales, List.drop_nil, salesMatchAt_nil]
  | cons c rest ih =>
    rw [scanSales]
    cases hm : salesMatchAt (c :: rest) with
    | some w =>
      constructor
      · intro h
        exact ⟨0, by rw [List.drop_zero, hm]; exact h, by omega⟩
      · rintro ⟨i, hi, hmin⟩
        cases i with
        | zero =>
          rw [List.drop_zero] at hi
          rw [hm] at hi
          exact hi
        | succ n =>
          have h0 := hmin 0 (Nat.succ_pos n)
          rw [List.drop_zero] at h0
          rw [h0] at hm
          cases hm
    | none =>
      rw [ih]
      constructor
      · rintro ⟨i, hi, hmin⟩
        refine ⟨i + 1, ?_, ?_⟩
        · rw [List.drop_succ_cons]
          exact hi
        · intro j hj
          cases j with
          | zero =>
            rw [List.drop_zero]
            exact hm
          | succ m =>
            rw [List.drop_succ_cons]
            exact hmin m (by omega)
      · rintro ⟨i, hi, hmin⟩
        cases i with
        | zero =>
          rw [List.drop_zero, hm] at hi
          cases hi
        | succ n =>
          refine ⟨n, ?_, ?_⟩
          · rw [List.drop_succ_cons] at hi
            exact hi
          · intro j hj
            have h2 := hmin (j + 1) (by omega)
            rw [List.drop_succ_cons] at h2
            exact h2

/-- The scan fails exactly when every start position fails. -/
theorem scanSales_none_iff (cs : List Char) :
    scanSales cs = none ↔ ∀ i, salesMatchAt (cs.drop i) = none := by
  induction cs with
  | nil => simp [scanSales, List.drop_nil, salesMatchAt_nil]
  | cons c rest ih =>
    rw [scanSales]
    cases hm : salesMatchAt (c :: rest) with
    | some w =>
      constructor
      · intro h
        cases h
      · intro h
        have h0 := h 0
        rw [List.drop_zero, hm] at h0
        cases h0
    | none =>
      rw [ih]
      constructor
      · intro h i
        cases i with
        | zero =>
          rw [List.drop_zero]
          exact hm
        | succ n =>
          rw [List.drop_succ_cons]
          exact h n
      · intro h n
        have h2 := h (n + 1)
        rw [List.drop_succ_cons] at h2
        exact h2

theorem rnEven_intCast (k : ℤ) : rnEven (k : ℚ) = k := by
  rw [rnEven, Int.floor_intCast]
  simp

theorem round64_zero : round64 0 = some 0 := by
  have h : (0 : ℚ) / 2 ^ f64step 0 = ((0 : ℤ) : ℚ) := by
    rw [zero_div]
    norm_num
  rw [round64, h, rnEven_intCast]
  rw [Int.cast_zero, zero_mul]
  rw [if_pos (by positivity)]

/-- The computed binade exponent is a lower bound: 2^(ratLog2 q) ≤ q. -/
theorem ratLog2_le (q : ℚ) (hq : 0 < q) : (2 : ℚ) ^ ratLog2 q ≤ q := by
  rw [ratLog2]
  split
  · next h => exact h
  · next h =>
    have hnum_pos : 0 < q.num := Rat.num_pos.mpr hq
    have hn0 : q.num.natAbs ≠ 0 := by
      intro h0
      rw [Int.natAbs_eq_zero] at h0
      omega
    have hlow : (2 : ℚ) ^ (Nat.log 2 q.num.natAbs : ℤ) ≤ (q.num.natAbs : ℚ) := by
      rw [zpow_natCast]
      exact_mod_cast Nat.pow_log_le_self 2 hn0
    have hhigh : (q.den : ℚ) ≤ (2 : ℚ) ^ ((Nat.log 2 q.den : ℤ) + 1) := by
      have h2 : (Nat.log 2 q.den : ℤ) + 1 = ((Nat.log 2 q.den + 1 : ℕ) : ℤ) := by
        push_cast
        ring
      rw [h2, zpow_natCast]
      exact_mod_cast (Nat.lt_pow_succ_log_self (by norm_num) q.den).le
    have hden_pos : (0 : ℚ) < (q.den : ℚ) := by
      exact_mod_cast q.den_pos
    have hq_eq : q = (q.num.natAbs : ℚ) / (q.den : ℚ) := by
      have hnat : ((q.num.natAbs : ℚ)) = (q.num : ℚ) := by
        rw [Int.cast_natAbs]
        exact_mod_cast abs_of_nonneg hnum_pos.le
      rw [hnat, Rat.num_div_den]
    calc (2 : ℚ) ^ ((Nat.log 2 q.num.natAbs : ℤ) - (Nat.log 2 q.den : ℤ) - 1)
        = (2 : ℚ) ^ (Nat.log 2 q.num.natAbs : ℤ) /
            (2 : ℚ) ^ ((Nat.log 2 q.den : ℤ) + 1) := by
          rw [← zpow_sub₀ (by norm_num : (2 : ℚ) ≠ 0)]
          congr 1
          ring
      _ ≤ (q.num.natAbs : ℚ) / (q.den : ℚ) := div_le_div₀ (by positivity) hlow hden_pos hhigh
      _ = q := hq_eq.symm

/-- A representable nonnegative binary64 value is returned unchanged by the
rounding: only such values are fixed points, which is what the spec-level
exactness statements rely on. -/
theorem round64_repr (q : ℚ) (h : Repr64 q) : round64 q = some q := by
  obtain ⟨m, s, rfl, hm, hs_lo, hs_hi⟩ := h
  rcases Nat.eq_zero_or_pos m with rfl | hm_pos
  · simp only [Nat.cast_zero, zero_mul]
    exact round64_zero
  · have h2ne : (2 : ℚ) ≠ 0 := by norm_num
    have h2pos : (0 : ℚ) < 2 ^ s := by positivity
    have hq_pos : (0 : ℚ) < (m : ℚ) * 2 ^ s :=
      mul_pos (by exact_mod_cast hm_pos) h2pos
    have hmq : (m : ℚ) < 2 ^ (53 : ℕ) := by
      exact_mod_cast hm
    have hpow : (2 : ℚ) ^ (53 : ℕ) * 2 ^ s = 2 ^ (s + 53) := by
      rw [← zpow_natCast (2 : ℚ) 53, ← zpow_add₀ h2ne]
      congr 1
      push_cast
      ring
    have hupper : (m : ℚ) * 2 ^ s < 2 ^ (s + 53) := by
      rw [← hpow]
      exact mul_lt_mul_of_pos_right hmq h2pos
    have hlog_le : ratLog2 ((m : ℚ) * 2 ^ s) ≤ s + 52 := by
      by_contra hcon
      push_neg at hcon
      have h1 := ratLog2_le ((m : ℚ) * 2 ^ s) hq_pos
      have h2 : (2 : ℚ) ^ (s + 53) ≤ (2 : ℚ) ^ ratLog2 ((m : ℚ) * 2 ^ s) := by
        apply zpow_le_zpow_right₀ (by norm_num : (1 : ℚ) ≤ 2)
        omega
      linarith
    have hst_le : f64step ((m : ℚ) * 2 ^ s) ≤ s := by
      rw [f64step]
      exact max_le (by omega) hs_lo
    have hks : ((s - f64step ((m : ℚ) * 2 ^ s)).toNat : ℤ) =
        s - f64step ((m : ℚ) * 2 ^ s) := Int.toNat_of_nonneg (by omega)
    have ht : ((m : ℚ) * 2 ^ s) / 2 ^ f64step ((m : ℚ) * 2 ^ s) =
        ((m * 2 ^ (s - f64step ((m : ℚ) * 2 ^ s)).toNat : ℕ) : ℚ) := by
      push_cast
      rw [← zpow_natCast (2 : ℚ) (s - f64step ((m : ℚ) * 2 ^ s)).toNat, hks,
        mul_div_assoc, ← zpow_sub₀ h2ne]
    have hrn : rnEven (((m : ℚ) * 2 ^ s) / 2 ^ f64step ((m : ℚ) * 2 ^ s)) =
        ((m * 2 ^ (s - f64step ((m : ℚ) * 2 ^ s)).toNat : ℕ) : ℤ) := by
      rw [ht]
      rw [show (((m * 2 ^ (s - f64step ((m : ℚ) * 2 ^ s)).toNat : ℕ) : ℚ)) =
        ((((m * 2 ^ (s - f64step ((m : ℚ) * 2 ^ s)).toNat : ℕ) : ℤ)) : ℚ) from by
          push_cast
          ring]
      exact rnEven_intCast _
    have hr : (rnEven (((m : ℚ) * 2 ^ s) / 2 ^ f64step ((m : ℚ) * 2 ^ s)) : ℚ) *
        2 ^ f64step ((m : ℚ) * 2 ^ s) = (m : ℚ) * 2 ^ s := by
      rw [hrn]
      push_cast
      rw [← zpow_natCast (2 : ℚ) (s - f64step ((m : ℚ) * 2 ^ s)).toNat, hks,
        mul_assoc, ← zpow_add₀ h2ne]
      rw [show s - f64step ((m : ℚ) * 2 ^ s) + f64step ((m : ℚ) * 2 ^ s) = s from by omega]
    have hbound : (m : ℚ) * 2 ^ s < 2 ^ (1024 : ℤ) := by
      have h2 : (2 : ℚ) ^ (s + 53) ≤ 2 ^ (1024 : ℤ) := by
        apply zpow_le_zpow_right₀ (by norm_num : (1 : ℚ) ≤ 2)
        omega
      linarith
    rw [round64, hr, if_pos hbound]

/-- C10 amended: parse_sales returns 0 for None, for the empty string, and
for any text with no occurrence of the pattern (a number, optional
whitespace, an optional K/M letter, optional whitespace, a plus sign); when
the pattern occurs, the leftmost occurrence decides the result, computed as
the source does in IEEE-754 doubles: the captured number is rounded to the
nearest double, scaled by 1000 for K or 1000000 for M with a rounded double
multiplication, and truncated toward zero, an OverflowError escaping when
the double is infinite; when the captured number and its exact scaled value
are both representable doubles, the result is exactly the truncated scaled
value. Whitespace between the number, the suffix, and the plus sign is
tolerated, which the original claim's "immediately followed" wording
excludes. -/
theorem parse_sales_leftmost_match_spec :
    parse_sales none = some 0 ∧
    parse_sales (some "") = some 0 ∧
    (∀ s : String, (∀ i g, ¬ AnchoredSales (s.toList.drop i) g) →
      parse_sales (some s) = some 0) ∧
    (∀ (s : String) (i : ℕ) (g : SalesGroups), AnchoredSales (s.toList.drop i) g →
      (∀ j, j < i → ∀ g2, ¬ AnchoredSales (s.toList.drop j) g2) →
      parse_sales (some s) = salesValue g) ∧
    (∀ (s : String) (i : ℕ) (g : SalesGroups), AnchoredSales (s.toList.drop i) g →
      (∀ j, j < i → ∀ g2, ¬ AnchoredSales (s.toList.drop j) g2) →
      Repr64 (numVal g.digits g.fracDigits) →
      Repr64 (numVal g.digits g.fracDigits * scaleOf g.unit) →
      parse_sales (some s) =
        some (truncQ (numVal g.digits g.fracDigits * scaleOf g.unit))) := by
  have key : ∀ (s : String) (i : ℕ) (g : SalesGroups), AnchoredSales (s.toList.drop i) g →
      (∀ j, j < i → ∀ g2, ¬ AnchoredSales (s.toList.drop j) g2) →
      parse_sales (some s) = salesValue g := by
    intro s i g hv hmin
    simp only [parse_sales]
    have hs : ¬ (s == "") = true := by
      intro hs
      have hse : s = "" := by simpa using hs
      subst hse
      obtain ⟨ds, fds, ws1, us, ws2, rest, hds_ne, _, _, _, _, _, hcs, _⟩ := hv
      rw [show ("" : String).toList.drop i = [] from by simp] at hcs
      cases ds with
      | nil => exact hds_ne rfl
      | cons a t => cases hcs
    rw [if_neg hs]
    have hscan : scanSales s.toList = some g := by
      rw [scanSales_some_iff]
      refine ⟨i, (salesMatchAt_eq_some_iff _ _).mpr hv, ?_⟩
      intro j hj
      cases hsmj : salesMatchAt (s.toList.drop j) with
      | none => rfl
      | some g2 => exact absurd ((salesMatchAt_eq_some_iff _ _).mp hsmj) (hmin j hj g2)
    simp only [hscan]
  refine ⟨rfl, rfl, ?_, key, ?_⟩
  · intro s hno
    simp only [parse_sales]
    by_cases hs : (s == "") = true
    · rw [if_pos hs]
    · rw [if_neg hs]
      have hscan : scanSales s.toList = none := by
        rw [scanSales_none_iff]
        intro i
        cases hsm : salesMatchAt (s.toList.drop i) with
        | none => rfl
        | some g => exact absurd ((salesMatchAt_eq_some_iff _ _).mp hsm) (hno i g)
      simp only [hscan]
  · intro s i g hv hmin hr1 hr2
    rw [key s i g hv hmin]
    have hus : g.unit = [] ∨ ∃ u, isUnitChar u = true ∧ g.unit = [u] := by
      obtain ⟨ds, fds, ws1, us, ws2, rest, _, _, _, _, _, husx, _, hg⟩ := hv
      rw [hg]
      exact husx
    rw [salesValue, round64_repr _ hr1]
    rcases hus with h0 | ⟨u, hu, h1⟩
    · rw [h0] at hr2 ⊢
      rw [show scaleOf ([] : List Char) = 1 from rfl, mul_one] at hr2 ⊢
      simp only [applyUnit, Option.map_some']
    · rw [h1] at hr2 ⊢
      rw [show scaleOf [u] = unitMult u from rfl] at hr2 ⊢
      simp only [applyUnit]
      rw [round64_repr _ hr2, Option.map_some']

/-- Immediate-adjacency tail following the claim's wording: the optional
unit letter and the plus sign with no whitespace allowed. Declared from the
claim for the counterexample. -/
def immedAfterNum : List Char → Bool
  | c :: r =>
    if isUnitChar c then
      match r with
      | '+' :: _ => true
      | _ => false
    else c == '+'
  | [] => false

/-- Immediate-adjacency anchored matcher following the claim's wording: a
number immediately followed by an optional K/M suffix and a plus sign.
Declared from the claim for the counterexample. -/
def immedMatchAt (cs : List Char) : Bool :=
  if (cs.takeWhile Char.isDigit).isEmpty then false
  else
    match cs.dropWhile Char.isDigit with
    | '.' :: r =>
      if (r.takeWhile Char.isDigit).isEmpty then immedAfterNum ('.' :: r)
      else immedAfterNum (r.dropWhile Char.isDigit)
    | r1 => immedAfterNum r1

/-- Scan of the immediate pattern over every start position. -/
def immedSuffixScan : List Char → Bool
  | [] => immedMatchAt []
  | c :: rest => immedMatchAt (c :: rest) || immedSuffixScan rest

/-- Text contains a number immediately followed by an optional K/M suffix
and a plus sign. Declared from the claim's wording. -/
def immedSalesPattern (s : String) : Bool := immedSuffixScan s.toList

/-- C10 counterexample: in "500 +" no number is immediately followed by an
optional suffix and a plus sign (whitespace intervenes), so the claim
requires 0, yet parse_sales returns 500 because the regex permits
whitespace before the plus sign. -/
theorem parse_sales_accepts_space_before_plus :
    parse_sales (some "500 +") = some 500 ∧ immedSalesPattern "500 +" = false := by
  constructor
  · have hscan : scanSales ("500 +".toList) = some ⟨['5', '0', '0'], [], []⟩ := by decide
    have hnum : numVal ['5', '0', '0'] [] = 500 := by
      have h1 : digitsVal ['5', '0', '0'] = 500 := by decide
      have h0 : digitsVal [] = 0 := by decide
      norm_num [numVal, h1, h0]
    have hround : round64 (numVal ['5', '0', '0'] []) = some (numVal ['5', '0', '0'] []) :=
      round64_repr _ ⟨500, 0, by rw [hnum]; norm_num, by norm_num, by norm_num, by norm_num⟩
    have hne : ("500 +" == "") = false := by decide
    simp only [parse_sales, hne, Bool.false_eq_true, if_false, hscan, salesValue,
      applyUnit, hround, Option.map_some']
    rw [hnum]
    norm_num [truncQ]
  · decide

/-- Witness for C10 amended: "2K+" parses to 2000 through its anchored
match at position 0 with both the number 2 and the scaled value 2000
representable, and "9 bought" parses to 0 since no position matches. -/
theorem parse_sales_leftmost_match_spec_witness :
    parse_sales (some "2K+") = some 2000 ∧ parse_sales (some "9 bought") = some 0 := by
  constructor
  · have hnum : numVal ['2'] [] = 2 := by
      have h2 : digitsVal ['2'] = 2 := by decide
      have h0 : digitsVal [] = 0 := by decide
      norm_num [numVal, h2, h0]
    have hscale : numVal ['2'] [] * scaleOf ['K'] = 2000 := by
      rw [hnum]
      norm_num [scaleOf, unitMult]
    have h := parse_sales_leftmost_match_spec.2.2.2.2 "2K+" 0 ⟨['2'], [], ['K']⟩
      ⟨['2'], [], [], ['K'], [], [], by decide, by unfold IsDigitRun; decide,
        by unfold IsDigitRun; decide, by unfold IsWsRun; decide, by unfold IsWsRun; decide,
        Or.inr ⟨'K', by decide, rfl⟩, by decide, rfl⟩
      (by omega)
      ⟨2, 0, by show numVal ['2'] [] = ((2 : ℕ) : ℚ) * 2 ^ (0 : ℤ); rw [hnum]; norm_num,
        by norm_num, by norm_num, by norm_num⟩
      ⟨2000, 0,
        by
          show numVal ['2'] [] * scaleOf ['K'] = ((2000 : ℕ) : ℚ) * 2 ^ (0 : ℤ)
          rw [hscale]
          norm_num,
        by norm_num, by norm_num, by norm_num⟩
    rw [h]
    show some (truncQ (numVal ['2'] [] * scaleOf ['K'])) = some 2000
    rw [hscale]
    norm_num [truncQ]
  · apply parse_sales_leftmost_match_spec.2.2.1
    intro i g hv
    have hscan : scanSales ("9 bought".toList) = none := by decide
    have hnone := (scanSales_none_iff _).mp hscan i
    have hsome := (salesMatchAt_eq_some_iff _ _).mpr hv
    rw [hnone] at hsome
    cases hsome

end LargeData
